import Mathlib

/-!
Verification of the book-highlights extraction and round-trip pipeline.

Shallow embedding of the Python sources:
  * helpers/markdown_helper.py  (save_comprehensive_markdown, the Document Serializer)
  * create_anki_flashcards.py   (AnkiFlashcardCreator.parse_markdown_file, the Document Parser)
  * kindle_highlights.py        (KindleHighlightsExtractor: the Pagination Walker and Field Extractor)

Strings are modelled as Lean strings (lists of unicode characters).  The
character classes of Python regular expressions are modelled on their ASCII
fragment (the documents and inputs of all claims are ASCII apart from the
emoji section headers, which are handled literally).  Each regular expression
used by the source is embedded as an explicit scanner with the leftmost,
lazy/greedy and backtracking behaviour of the original pattern, restricted to
that concrete pattern.
-/

namespace BookHighlights

/-- Python whitespace class (ASCII fragment of str.strip and the regex class backslash-s). -/
def pyIsSpace (c : Char) : Bool :=
  c = ' ' || c = '\t' || c = '\n' || c = '\x0d' || c = '\x0c' || c = '\x0b'

/-- Python word-character class (ASCII fragment of the regex class backslash-w): letters, digits, underscore. -/
def isPyWord (c : Char) : Bool :=
  c.isAlpha || c.isDigit || c = '_'

/-- Model of Python str.strip on a character list: drop whitespace from both ends. -/
def pyStripL (s : List Char) : List Char :=
  ((s.dropWhile pyIsSpace).reverse.dropWhile pyIsSpace).reverse

/-- Model of Python str.strip on strings. -/
def pyStrip (s : String) : String := ⟨pyStripL s.data⟩

/-- Truthiness of an optional Python string: None and the empty string are falsy. -/
def pyTruthyOptStr : Option String → Bool
  | none => false
  | some s => s != ""

/-- Rendering of an optional Python string inside an f-string: None prints as "None". -/
def pyStrOfOpt : Option String → String
  | none => "None"
  | some s => s

/-- Book record (helpers/models.py, dataclass Book; only the fields the core reads). -/
structure Book where
  id : String
  title : String
  author : String
  asin : Option String := none
  deriving Repr, DecidableEq

/-- Highlight record (helpers/models.py, dataclass Highlight; created_date is always None here). -/
structure Highlight where
  id : String
  text : String
  location : Option String := none
  page : Option String := none
  note : Option String := none
  color : Option String := none
  deriving Repr, DecidableEq

/-- One question/answer pair of the generated summary payload. -/
structure Flashcard where
  question : String
  answer : String
  deriving Repr, DecidableEq

/-- Summary payload dict produced by llm_summarizer (keys summary, key_points, flashcards).
The flashcards key is optional in the dict, mirrored by an Option; the serializer
tests both its presence and its truthiness. -/
structure SummaryData where
  summary : String
  keyPoints : List String
  flashcards : Option (List Flashcard) := none
  deriving Repr, DecidableEq

/-- Metadata annotation of one highlight in the serialized document:
the comma-joined list of whichever of location, page, color are truthy
(save_comprehensive_markdown, the metadata_parts list). -/
def metadataParts (h : Highlight) : List String :=
  (if pyTruthyOptStr h.location then ["Location: " ++ pyStrOfOpt h.location] else []) ++
  (if pyTruthyOptStr h.page then ["Page: " ++ pyStrOfOpt h.page] else []) ++
  (if pyTruthyOptStr h.color then ["Color: " ++ pyStrOfOpt h.color] else [])

/-- Serialized form of the numbered key-point lines, numbering from n
(save_comprehensive_markdown: one line per point, "i. point"). -/
def renderKeyPoints (n : Nat) : List String → String
  | [] => ""
  | p :: ps => toString n ++ ". " ++ p ++ "\n" ++ renderKeyPoints (n + 1) ps

/-- Serialized form of the numbered flashcard blocks, numbering from n
(save_comprehensive_markdown: Q/A lines each followed by a blank line, then a rule). -/
def renderFlashcards (n : Nat) : List Flashcard → String
  | [] => ""
  | fc :: fcs =>
      "**Q" ++ toString n ++ ":** " ++ fc.question ++ "\n\n" ++
      "**A" ++ toString n ++ ":** " ++ fc.answer ++ "\n\n" ++
      "---\n\n" ++ renderFlashcards (n + 1) fcs

/-- Serialized form of the numbered highlight blocks, numbering from n. -/
def renderHighlights (n : Nat) : List Highlight → String
  | [] => ""
  | h :: hs =>
      "### Highlight " ++ toString n ++ "\n\n" ++
      h.text ++ "\n\n" ++
      (if metadataParts h != [] then "*" ++ String.intercalate ", " (metadataParts h) ++ "*\n\n" else "") ++
      (if pyTruthyOptStr h.note then "**Note:** " ++ pyStrOfOpt h.note ++ "\n\n" else "") ++
      "---\n\n" ++ renderHighlights (n + 1) hs

/-- Document Serializer: the exact byte content written by
save_comprehensive_markdown (helpers/markdown_helper.py) to the output file.
The file-system side effect is dropped; the function returns the written text. -/
def comprehensiveMarkdown (book : Book) (highlights : List Highlight)
    (summaryData : Option SummaryData) : String :=
  "# " ++ book.title ++ "\n\n" ++
  "**Author:** " ++ book.author ++ "\n\n" ++
  (if pyTruthyOptStr book.asin then "**ASIN:** " ++ pyStrOfOpt book.asin ++ "\n\n" else "") ++
  "---\n\n" ++
  (match summaryData with
   | none => ""
   | some sd =>
      "## 📝 AI-Generated Summary\n\n" ++
      "**One-Sentence Summary:** " ++ sd.summary ++ "\n\n" ++
      "**Key Points:**\n" ++ renderKeyPoints 1 sd.keyPoints ++ "\n" ++
      (match sd.flashcards with
       | some fcs =>
          if fcs != [] then
            "## 🎯 Flashcards\n\n" ++
            "*Test your understanding of the key concepts*\n\n" ++
            renderFlashcards 1 fcs
          else ""
       | none => "") ++
      "---\n\n") ++
  "## 📖 Highlights (" ++ toString highlights.length ++ " total)\n\n" ++
  renderHighlights 1 highlights

/-!
Document Parser (create_anki_flashcards.py, parse_markdown_file).

Each regular expression of the source is embedded as an explicit scanner
with the semantics of the original pattern on its concrete shape:
scanning is leftmost; a line pattern "marker(.+)$" under MULTILINE captures
the maximal run of non-newline characters after the marker (at least one);
a section pattern "header(.*?)(?=look)" lazily captures up to the first
position where the lookahead holds (end of input always counts, matching Z);
the findall patterns resume scanning at the end of each match.
-/

/-- Scanner for the pattern marker(.+)$ under re.MULTILINE without a line anchor:
first occurrence of the literal marker followed by at least one non-newline
character; returns the captured rest of the line. -/
def lineSearch (marker : List Char) : List Char → Option (List Char)
  | [] => none
  | c :: rest =>
      let tail := (c :: rest).drop marker.length
      if marker.isPrefixOf (c :: rest) && tail.headD '\n' != '\n' then
        some (tail.takeWhile (· != '\n'))
      else lineSearch marker rest

/-- Scanner for a line pattern anchored with a caret under re.MULTILINE: the
occurrence must be at the start of the input or right after a newline. -/
def titleSearchAux (marker : List Char) : Option Char → List Char → Option (List Char)
  | _, [] => none
  | prev, c :: rest =>
      let tail := (c :: rest).drop marker.length
      if (prev == none || prev == some '\n') && marker.isPrefixOf (c :: rest)
          && tail.headD '\n' != '\n' then
        some (tail.takeWhile (· != '\n'))
      else titleSearchAux marker (some c) rest

/-- Lazy split at the first suffix where the lookahead holds; the end of the
input always satisfies the lookahead of the embedded patterns (the Z branch),
so the split is total: returns (consumed, suffix at lookahead). -/
def findLookSplit (look : List Char → Bool) : List Char → List Char × List Char
  | [] => ([], [])
  | c :: rest =>
      if look (c :: rest) then ([], c :: rest)
      else
        let pr := findLookSplit look rest
        (c :: pr.1, pr.2)

/-- Scanner for a section pattern header(.*?)(?=look) under re.DOTALL: find the
first occurrence of the literal header, then lazily capture to the first
lookahead position (or the end). -/
def sectionSearch (header : List Char) (look : List Char → Bool) : List Char → Option (List Char)
  | [] => if header.isEmpty then some [] else none
  | c :: rest =>
      if header.isPrefixOf (c :: rest) then
        some (findLookSplit look ((c :: rest).drop header.length)).1
      else sectionSearch header look rest

/-- First occurrence of a literal marker that is followed by at least one more
character; returns (text before the marker, text after the marker).  Embeds the
backtracking search for the lazy group in "(.+?) marker (.+?)...": an occurrence
with nothing after the marker cannot complete the match and is skipped. -/
def findSplit (marker : List Char) : List Char → Option (List Char × List Char)
  | [] => none
  | c :: rest =>
      if marker.isPrefixOf (c :: rest) && !((c :: rest).drop marker.length).isEmpty then
        some ([], (c :: rest).drop marker.length)
      else (findSplit marker rest).map (fun pr => (c :: pr.1, pr.2))

/-- Lookahead of the key-points section pattern: a blank line, a heading line, or the end. -/
def lookKeyPoints (t : List Char) : Bool :=
  ['\n', '\n'].isPrefixOf t || ['\n', '#', '#'].isPrefixOf t

/-- Lookahead of the flashcards section pattern: a heading line or the end. -/
def lookSection (t : List Char) : Bool :=
  ['\n', '#', '#'].isPrefixOf t

/-- Lookahead of the numbered-point pattern: a newline then digits then a dot,
or a blank line, or the end. -/
def lookPoint (t : List Char) : Bool :=
  ['\n', '\n'].isPrefixOf t ||
  (match t with
   | '\n' :: u =>
      let d := u.takeWhile Char.isDigit
      !d.isEmpty && ((u.drop d.length).headD ' ' == '.')
   | _ => false)

/-- Lookahead of the flashcard pair pattern: a section rule, a next question marker, or the end. -/
def lookQA (t : List Char) : Bool :=
  ['\n', '\n', '-', '-', '-'].isPrefixOf t || ['\n', '\n', '*', '*', 'Q'].isPrefixOf t

/-- Match of one numbered key point at the current position: digits, a dot and a
space, then a lazy capture of at least one character up to the lookahead. -/
def matchPoint (s : List Char) : Option (List Char × List Char) :=
  let d := s.takeWhile Char.isDigit
  if !d.isEmpty && ['.', ' '].isPrefixOf (s.drop d.length) then
    match s.drop (d.length + 2) with
    | [] => none
    | c :: rest =>
        let pr := findLookSplit lookPoint rest
        some (c :: pr.1, pr.2)
  else none

/-- Findall loop for the numbered key points; the fuel argument is the length of
the scanned text, which bounds the number of scanning steps. -/
def scanPoints : Nat → List Char → List (List Char)
  | 0, _ => []
  | _, [] => []
  | fuel + 1, c :: rest =>
      match matchPoint (c :: rest) with
      | some (cap, suf) => cap :: scanPoints fuel suf
      | none => scanPoints fuel rest

/-- Answer marker searched by the flashcard pair pattern for the captured digit
group d: a blank line then the bold A label carrying the same digits. -/
def aMarker (d : List Char) : List Char :=
  ['\n', '\n', '*', '*', 'A'] ++ d ++ [':', '*', '*', ' ']

/-- Match of one flashcard pair at the current position, embedding the pattern
Q-label, lazy question capture, matching A-label by backreference, lazy answer
capture up to the lookahead.  Returns (digits, question, answer, resume suffix). -/
def matchQA (s : List Char) : Option (List Char × List Char × List Char × List Char) :=
  if ['*', '*', 'Q'].isPrefixOf s then
    let t := s.drop 3
    let d := t.takeWhile Char.isDigit
    if !d.isEmpty && [':', '*', '*', ' '].isPrefixOf (t.drop d.length) then
      match t.drop (d.length + 4) with
      | [] => none
      | c :: body =>
          match findSplit (aMarker d) body with
          | none => none
          | some (qpre, post) =>
              match post with
              | [] => none
              | a0 :: arest =>
                  let pr := findLookSplit lookQA arest
                  some (d, c :: qpre, a0 :: pr.1, pr.2)
    else none
  else none

/-- Findall loop for the flashcard pairs. -/
def scanQA : Nat → List Char → List (List Char × List Char × List Char)
  | 0, _ => []
  | _, [] => []
  | fuel + 1, c :: rest =>
      match matchQA (c :: rest) with
      | some (d, q, a, suf) => (d, q, a) :: scanQA fuel suf
      | none => scanQA fuel rest

/-- Parsed record returned by parse_markdown_file (the file_path bookkeeping
field is dropped; no claim mentions it). -/
structure ParsedDoc where
  bookTitle : String
  author : String
  asin : Option String
  summary : String
  keyPoints : List String
  flashcards : List Flashcard
  deriving Repr, DecidableEq

/-- Literal marker of the level-1 title heading pattern. -/
def titleMarker : List Char := ['#', ' ']

/-- Literal marker of the author line pattern. -/
def authorMarker : List Char := "**Author:** ".data

/-- Literal marker of the catalog-id line pattern. -/
def asinMarker : List Char := "**ASIN:** ".data

/-- Literal marker of the one-sentence-summary line pattern. -/
def summaryMarker : List Char := "**One-Sentence Summary:** ".data

/-- Literal header of the key-points section pattern. -/
def keyPointsHeader : List Char := "**Key Points:**".data

/-- Literal header of the flashcards section pattern, byte-for-byte as it
stands in create_anki_flashcards.py line 121: the emoji of the serializer
appears there as the four characters U+F8FF U+00FC U+00E9 U+00D8 (a mangled
re-encoding), not as the target emoji the serializer writes. -/
def flashcardsHeader : List Char := "## üéØ Flashcards".data

/-- Document Parser: the pure content-to-record part of
AnkiFlashcardCreator.parse_markdown_file (create_anki_flashcards.py).  The
file read is dropped; the function consumes the file content.  No statement
of the body can raise, so the try/except wrapper of the source is inert here. -/
def parseMarkdownContent (content : String) : ParsedDoc :=
  let s := content.data
  { bookTitle := match titleSearchAux titleMarker none s with
                 | some cap => ⟨cap⟩
                 | none => "Unknown Book"
    author := match lineSearch authorMarker s with
              | some cap => ⟨cap⟩
              | none => "Unknown Author"
    asin := (lineSearch asinMarker s).map (fun cap => (⟨cap⟩ : String))
    summary := match lineSearch summaryMarker s with
               | some cap => ⟨cap⟩
               | none => "No summary available"
    keyPoints := match sectionSearch keyPointsHeader lookKeyPoints s with
                 | none => []
                 | some body => ((scanPoints body.length body).map (fun p => pyStrip ⟨p⟩)).filter (· != "")
    flashcards := match sectionSearch flashcardsHeader lookSection s with
                  | none => []
                  | some body => (scanQA body.length body).map
                      (fun tr => { question := pyStrip ⟨tr.2.1⟩, answer := pyStrip ⟨tr.2.2⟩ })
  }

/-!
Field Extractor and Pagination Walker (kindle_highlights.py).

A raw highlight element is modelled by the outcomes of the selector queries
the extractor performs on it: an outer Option none means the query raised (the
caught NoSuchElement path), an inner Option models a value attribute that the
driver reports as None.
-/

/-- Raw highlight element as seen through the selector queries of the Field Extractor. -/
structure RawElement where
  textElemText : Option String := none
  fullText : String := ""
  colorClass : Option (Option String) := none
  locationVal : Option (Option String) := none
  headerText : Option String := none
  noteHtml : Option (Option String) := none
  deriving Repr, DecidableEq

/-- Text field (_extract_highlight_text): the dedicated text node, falling back
to the full element text; both stripped.  Never fails. -/
def extract_highlight_text (e : RawElement) : String :=
  match e.textElemText with
  | some t => pyStrip t
  | none => pyStrip e.fullText

/-- Literal marker of the color-token pattern in map_text_to_color. -/
def colorMarker : List Char := "kp-notebook-highlight-".data

/-- Scanner for the color pattern: leftmost occurrence of the literal marker
followed by at least one word character; captures the maximal word run. -/
def colorTokenSearch : List Char → Option (List Char)
  | [] => none
  | c :: rest =>
      let tail := (c :: rest).drop colorMarker.length
      if colorMarker.isPrefixOf (c :: rest) && isPyWord (tail.headD '-') then
        some (tail.takeWhile isPyWord)
      else colorTokenSearch rest

/-- Color mapping (map_text_to_color): a falsy class string is coalesced to the
empty string, then the color-token pattern is searched. -/
def map_text_to_color (highlight_classes : Option String) : Option String :=
  (colorTokenSearch (match highlight_classes with | some s => s.data | none => [])).map
    (fun w => (⟨w⟩ : String))

/-- Color field (_extract_highlight_color): class attribute of the nested marker
element fed to map_text_to_color; a raising query degrades to none. -/
def extract_highlight_color (e : RawElement) : Option String :=
  match e.colorClass with
  | none => none
  | some cls => map_text_to_color cls

/-- Location field (_extract_highlight_location): the value attribute of the
location node; a raising query degrades to none. -/
def extract_highlight_location (e : RawElement) : Option String :=
  match e.locationVal with
  | none => none
  | some v => v

/-- Scanner for the trailing-digits pattern of the page field: the dollar
anchor without MULTILINE matches at the end or just before one final newline;
the match is the maximal trailing digit run there. -/
def trailingDigits (s : List Char) : Option (List Char) :=
  let core := match s.reverse with
              | '\n' :: r => r
              | r => r
  let run := core.takeWhile Char.isDigit
  if run.isEmpty then none else some run.reverse

/-- Page field (_extract_highlight_page): trailing digits of the header text. -/
def extract_highlight_page (e : RawElement) : Option String :=
  match e.headerText with
  | none => none
  | some h => (trailingDigits h.data).map (fun r => (⟨r⟩ : String))

/-- Replacement of br tags with newlines (first substitution of br2ln):
the pattern br with optional whitespace and an optional slash before the
closing angle; leftmost scanning resuming after each replacement.  The fuel is
the input length, a bound on the scanning steps. -/
def replBr : Nat → List Char → List Char
  | 0, s => s
  | _, [] => []
  | fuel + 1, c :: rest =>
      if ['<', 'b', 'r'].isPrefixOf (c :: rest) then
        match ((c :: rest).drop 3).dropWhile pyIsSpace with
        | '/' :: '>' :: r => '\n' :: replBr fuel r
        | '>' :: r => '\n' :: replBr fuel r
        | _ => c :: replBr fuel rest
      else c :: replBr fuel rest

/-- Removal of remaining markup tags (second substitution of br2ln): an opening
angle, at least one non-closing character, a closing angle. -/
def stripTags : Nat → List Char → List Char
  | 0, s => s
  | _, [] => []
  | fuel + 1, c :: rest =>
      if c = '<' then
        let inner := rest.takeWhile (· != '>')
        if !inner.isEmpty && ((rest.drop inner.length).headD ' ' == '>') then
          stripTags fuel (rest.drop (inner.length + 1))
        else c :: stripTags fuel rest
      else c :: stripTags fuel rest

/-- Note markup conversion (br2ln): falsy input yields None; otherwise br tags
become newlines, other tags are dropped, and the result is stripped. -/
def br2ln : Option String → Option String
  | none => none
  | some h =>
      if h == "" then none
      else
        let r := replBr h.data.length h.data
        some ⟨pyStripL (stripTags r.length r)⟩

/-- Note field (_extract_highlight_note): inner markup of the note node through br2ln. -/
def extract_highlight_note (e : RawElement) : Option String :=
  match e.noteHtml with
  | none => none
  | some h => br2ln h

/-- Deterministic stand-in for the process-seeded Python hash() that feeds the
synthetic highlight id; no claim depends on id values. -/
def pyHash (s : String) : Nat :=
  s.data.foldl (fun a c => a * 31 + c.toNat) 7

/-- Assembly of one Highlight (_extract_highlight_data): an element with no
recoverable text yields None; otherwise all five fields are extracted
independently.  No statement of the body can raise in this model, so the outer
try/except of the source is inert. -/
def extract_highlight_data (e : RawElement) (index : Nat) (book : Book) (pageCount : Nat) :
    Option Highlight :=
  let text := extract_highlight_text e
  if text == "" then none
  else some {
    id := pyStrOfOpt book.asin ++ "_" ++ toString index ++ "_" ++ toString pageCount
            ++ "_" ++ toString (pyHash text)
    text := text
    location := extract_highlight_location e
    page := extract_highlight_page e
    note := extract_highlight_note e
    color := extract_highlight_color e }

/-- Continuation state dict built by parse_next_page_state: the token is a
truthy string; the content limit state is whatever the value attribute held
(possibly None, which the next url renders as the text None). -/
structure PageState where
  contentLimitState : Option String
  token : String
  deriving Repr, DecidableEq

/-- One fetched page: whether the fetch or element query raised, the
highlight-shaped elements in page order, and the two pagination elements
(found or raising, with their value attributes). -/
structure Page where
  fetchFails : Bool := false
  elements : List RawElement := []
  clsElem : Option (Option String) := none
  tokenElem : Option (Option String) := none
  deriving Repr, DecidableEq

/-- Continuation token reader (parse_next_page_state): both pagination elements
are queried inside one try block, so either query raising yields None; a
falsy token value also yields None. -/
def parse_next_page_state (p : Page) : Option PageState :=
  match p.clsElem, p.tokenElem with
  | some clsVal, some tokVal =>
      if pyTruthyOptStr tokVal then
        some { contentLimitState := clsVal, token := pyStrOfOpt tokVal }
      else none
  | _, _ => none

/-- Request url builder (highlights_url): base notebook url with asin and the
two continuation parameters, empty when no state is given. -/
def highlights_url (book : Book) (state : Option PageState) : String :=
  let contentLimitState := match state with
                           | some st => pyStrOfOpt st.contentLimitState
                           | none => ""
  let token := match state with
               | some st => st.token
               | none => ""
  "https://read.amazon.com/notebook?asin=" ++ pyStrOfOpt book.asin ++
    "&contentLimitState=" ++ contentLimitState ++ "&token=" ++ token

/-- Per-page extraction (_extract_highlights_from_page): a failing fetch or
element query yields none (the caught exception); otherwise every
highlight-shaped element goes through the field extractor, yielding None
entries for elements with no recoverable text. -/
def extract_highlights_from_page (book : Book) (pageCount : Nat) (p : Page) :
    Option (List (Option Highlight)) :=
  if p.fetchFails then none
  else some (p.elements.mapIdx (fun i e => extract_highlight_data e i book pageCount))

/-- Pagination loop of extract_highlights_from_book: fetch the page for the
current url, stop on a fetch error or a missing continuation token,
otherwise follow the token chain.  The page environment is consumed in fetch
order; a fetch beyond it is modelled as a failing fetch.  Returns the raw
accumulated entries and the log of requested urls. -/
def walkPages (book : Book) : List Page → Option PageState → Nat →
    List (Option Highlight) × List String
  | [], state, _ => ([], [highlights_url book state])
  | p :: rest, state, pageCount =>
      let url := highlights_url book state
      match extract_highlights_from_page book pageCount p with
      | none => ([], [url])
      | some pageHighlights =>
          match parse_next_page_state p with
          | some st =>
              let pr := walkPages book rest (some st) (pageCount + 1)
              (pageHighlights ++ pr.1, url :: pr.2)
          | none => (pageHighlights, [url])

/-- Exceptions that can escape the walker boundary in this model. -/
inductive PyErr where
  | attributeError
  deriving Repr, DecidableEq

/-- Precondition check (_validate_extraction_prerequisites): logged in and a truthy asin. -/
def validate_extraction_prerequisites (isLoggedIn : Bool) (book : Book) : Bool :=
  isLoggedIn && pyTruthyOptStr book.asin

/-- Final filtering comprehension of extract_highlights_from_book applied to
the loop outcome: iterating over a None entry raises AttributeError on the
text attribute access; otherwise the entries with truthy text are returned. -/
def finishWalk (pr : List (Option Highlight) × List String) :
    Except PyErr (List Highlight) × List String :=
  if pr.1.any (fun h => h.isNone) then (.error .attributeError, pr.2)
  else (.ok ((pr.1.filterMap id).filter (fun h => h.text != "")), pr.2)

/-- Pagination Walker entry point (extract_highlights_from_book): the returned
value, or the AttributeError escaping from the final filtering comprehension
when a None entry reaches it, together with the url fetch log. -/
def extract_highlights_from_book (isLoggedIn : Bool) (book : Book) (pages : List Page) :
    Except PyErr (List Highlight) × List String :=
  if !validate_extraction_prerequisites isLoggedIn book then (.ok [], [])
  else finishWalk (walkPages book pages none 1)

/-!
Slugification (markdown_helper.save_comprehensive_markdown lines 9-13 and
KindleHighlightsExtractor._sanitize_filename, identical code).
-/

/-- Model of re.sub with a single-character class: each matching character is
replaced independently under leftmost scanning. -/
def reSubClassEach (cls : Char → Bool) (repl : List Char) : List Char → List Char
  | [] => []
  | c :: rest =>
      if cls c then repl ++ reSubClassEach cls repl rest
      else c :: reSubClassEach cls repl rest

/-- Worker of the one-or-more class substitution, tracking whether the scan is
inside a matched run. -/
def reSubRunsGo (cls : Char → Bool) (repl : List Char) : Bool → List Char → List Char
  | _, [] => []
  | inRun, c :: rest =>
      if cls c then (if inRun then [] else repl) ++ reSubRunsGo cls repl true rest
      else c :: reSubRunsGo cls repl false rest

/-- Model of re.sub with a one-or-more character class: every maximal run of
matching characters is replaced by the replacement once. -/
def reSubClassRuns (cls : Char → Bool) (repl : List Char) (s : List Char) : List Char :=
  reSubRunsGo cls repl false s

/-- Character class removed by the first slug substitution: everything outside
word characters, whitespace and hyphen. -/
def nonSlugChar (c : Char) : Bool := !(isPyWord c || pyIsSpace c || c = '-')

/-- Character class of the second slug substitution: hyphen or whitespace. -/
def dashOrSpace (c : Char) : Bool := c = '-' || pyIsSpace c

/-- Slugification of a title: delete the excluded characters, strip surrounding
whitespace, then collapse hyphen/whitespace runs to single hyphens. -/
def sanitize_filename (title : String) : String :=
  ⟨reSubClassRuns dashOrSpace ['-'] (pyStripL (reSubClassEach nonSlugChar [] title.data))⟩

/-!
Specification-side definitions used to compare code behaviour against the
wording of individual claims.
-/

/-- Slug derivation read literally from claim C8: remove exactly the characters
outside letters, digits, whitespace and hyphen, then collapse every run of
whitespace and hyphens into a single hyphen.  No trimming step, and the
underscore is removed (it is not a letter, digit, whitespace or hyphen). -/
def claimSlug (title : String) : String :=
  ⟨reSubClassRuns dashOrSpace ['-']
    (title.data.filter (fun c => c.isAlpha || c.isDigit || pyIsSpace c || c = '-'))⟩

/-- Run collapsing written directly from the amended wording: a hyphen or
whitespace character becomes a hyphen, merging with a hyphen already produced
for the rest of the run. -/
def collapseSpec : List Char → List Char
  | [] => []
  | c :: rest =>
      if dashOrSpace c then
        match collapseSpec rest with
        | '-' :: out => '-' :: out
        | out => '-' :: out
      else c :: collapseSpec rest

/-- Slug derivation following the amended claim C8: remove exactly the
characters outside word characters (letters, digits, underscore), whitespace
and hyphen, trim surrounding whitespace, then collapse every run of whitespace
and hyphens into a single hyphen. -/
def amendedSlugSpec (title : String) : String :=
  ⟨collapseSpec (pyStripL (title.data.filter (fun c => isPyWord c || pyIsSpace c || c = '-')))⟩

/-- Occurrence test for a literal marker anywhere in a text. -/
def hasMarkerOccurrence (marker : List Char) : List Char → Bool
  | [] => marker.isEmpty
  | c :: rest => marker.isPrefixOf (c :: rest) || hasMarkerOccurrence marker rest

/-!
Supporting lemmas.
-/

/-- Deleting a character class with re.sub is filtering by its complement. -/
theorem reSubClassEach_nil_eq_filter (cls : Char → Bool) :
    ∀ s : List Char, reSubClassEach cls [] s = s.filter (fun c => !cls c) := by
  intro s
  induction s with
  | nil => rfl
  | cons c rest ih =>
      by_cases h : cls c = true
      · simp [reSubClassEach, h, List.filter, ih]
      · simp at h
        simp [reSubClassEach, h, List.filter, ih]

/-- Joint characterisation of the run-substitution worker against the
specification-side collapse: outside a run they agree, and inside a run the
worker continues the hyphen already emitted. -/
theorem reSubRunsGo_eq_collapseSpec :
    ∀ s : List Char,
      reSubRunsGo dashOrSpace ['-'] false s = collapseSpec s ∧
      '-' :: reSubRunsGo dashOrSpace ['-'] true s
        = (match collapseSpec s with
           | '-' :: out => '-' :: out
           | out => '-' :: out) := by
  intro s
  induction s with
  | nil => exact ⟨rfl, rfl⟩
  | cons c rest ih =>
      obtain ⟨ihF, ihT⟩ := ih
      by_cases h : dashOrSpace c = true
      · constructor
        · simp [reSubRunsGo, h, collapseSpec, ihT]
        · simp only [reSubRunsGo, h, if_true, List.nil_append, collapseSpec, ihT]
          rcases hc : collapseSpec rest with _ | ⟨c0, out⟩
          · simp [hc] at ihT
            simp [ihT]
          · by_cases h0 : c0 = '-'
            · subst h0; simp [hc] at ihT; simp [ihT]
            · simp [hc, h0] at ihT
              simp [ihT, h0]
      · have hc : c ≠ '-' := by
          intro heq; subst heq; simp [dashOrSpace] at h
        simp only [Bool.not_eq_true] at h
        constructor
        · simp [reSubRunsGo, h, collapseSpec, ihF]
        · simp only [reSubRunsGo, h, collapseSpec, ihF]
          simp [hc]

/-- Any captured color token is a nonempty run of word characters. -/
theorem colorTokenSearch_word (s : List Char) :
    ∀ w, colorTokenSearch s = some w → w ≠ [] ∧ w.all isPyWord = true := by
  induction s with
  | nil => intro w h; simp [colorTokenSearch] at h
  | cons c rest ih =>
      intro w h
      simp only [colorTokenSearch] at h
      split at h
      · rename_i hcond
        obtain ⟨hpre, hhead⟩ := Bool.and_eq_true_iff.mp hcond
        injection h with h
        rcases htail : (c :: rest).drop colorMarker.length with _ | ⟨t0, ts⟩ <;>
          rw [htail] at hhead h
        · simp [isPyWord] at hhead
        · subst h
          simp only [List.headD_cons] at hhead
          refine ⟨by simp [List.takeWhile_cons, hhead], ?_⟩
          rw [List.all_eq_true]
          intro x hx
          exact List.mem_takeWhile_imp hx
      · exact ih w h

/-- C6 counterexample input: a marker element whose class string carries an
unrecognised color token. -/
def greenElem : RawElement := { colorClass := some (some "kp-notebook-highlight-green") }

/-- C6: the color extractor output is NOT confined to the closed set
pink/blue/yellow/orange/None: an unrecognised class suffix is passed through. -/
theorem color_not_closed_counterexample :
    extract_highlight_color greenElem = some "green" ∧
    some "green" ∉ [some "pink", some "blue", some "yellow", some "orange", (none : Option String)] := by
  decide

/-- Occurrence of the color marker at position i of a class string, followed
by at least one word character (the condition under which the color pattern
matches there). -/
def markerWordAt (s : List Char) (i : Nat) : Prop :=
  colorMarker.isPrefixOf (s.drop i) = true
    ∧ isPyWord (((s.drop i).drop colorMarker.length).headD '-') = true

instance markerWordAtDec (s : List Char) (i : Nat) : Decidable (markerWordAt s i) :=
  inferInstanceAs (Decidable (_ ∧ _))

/-- The color scanner condition at the head of the text is the position-zero
marker-occurrence predicate. -/
theorem colorHit_false_of_not_at_zero (c : Char) (rest : List Char)
    (h0 : ¬ markerWordAt (c :: rest) 0) :
    (colorMarker.isPrefixOf (c :: rest)
      && isPyWord (((c :: rest).drop colorMarker.length).headD '-')) = false := by
  cases hA : colorMarker.isPrefixOf (c :: rest)
  · simp
  · cases hB : isPyWord (((c :: rest).drop colorMarker.length).headD '-')
    · simp [hB]
    · exact absurd ⟨hA, hB⟩ h0

/-- The color scanner steps over a position where the pattern does not match. -/
theorem colorTokenSearch_cons_of_no_hit (c : Char) (rest : List Char)
    (h0 : ¬ markerWordAt (c :: rest) 0) :
    colorTokenSearch (c :: rest) = colorTokenSearch rest := by
  simp only [colorTokenSearch, colorHit_false_of_not_at_zero c rest h0]
  rfl

/-- A class string without any marker-followed-by-word-character occurrence
yields no color token. -/
theorem colorTokenSearch_eq_none_of_no_hit :
    ∀ s : List Char, (∀ i, ¬ markerWordAt s i) → colorTokenSearch s = none := by
  intro s
  induction s with
  | nil => intro _; rfl
  | cons c rest ih =>
      intro h
      rw [colorTokenSearch_cons_of_no_hit c rest (h 0)]
      exact ih (fun i hm => h (i + 1) hm)

/-- At the first marker-followed-by-word-character occurrence, the color
scanner captures exactly the word run following the marker there. -/
theorem colorTokenSearch_eq_some_of_first_hit :
    ∀ (s : List Char) (n : Nat), markerWordAt s n → (∀ j < n, ¬ markerWordAt s j) →
      colorTokenSearch s
        = some (((s.drop n).drop colorMarker.length).takeWhile isPyWord) := by
  intro s
  induction s with
  | nil =>
      intro n hn _
      exfalso
      obtain ⟨hp, _⟩ := hn
      rw [List.drop_nil] at hp
      exact absurd hp (by decide)
  | cons c rest ih =>
      intro n hn hfirst
      cases n with
      | zero =>
          obtain ⟨hp, hw⟩ := hn
          have hcond : (colorMarker.isPrefixOf (c :: rest)
              && isPyWord (((c :: rest).drop colorMarker.length).headD '-')) = true :=
            Bool.and_eq_true_iff.mpr ⟨hp, hw⟩
          simp only [colorTokenSearch, hcond]
          rfl
      | succ n =>
          rw [colorTokenSearch_cons_of_no_hit c rest (hfirst 0 (Nat.succ_pos n))]
          exact ih n hn (fun j hj => hfirst (j + 1) (by omega))

/-- A class string with no occurrence below its length has none at all: beyond
the end the marker cannot match. -/
theorem no_hit_of_all_lt (s : List Char)
    (h : ∀ i < s.length, ¬ markerWordAt s i) : ∀ i, ¬ markerWordAt s i := by
  intro i
  by_cases hi : i < s.length
  · exact h i hi
  · intro hm
    obtain ⟨hp, _⟩ := hm
    rw [List.drop_eq_nil_of_le (by omega)] at hp
    exact absurd hp (by decide)

/-- C6 (amended): for every raw highlight element the color extractor returns
None when the marker element is absent, its class value is None, or the class
string has no occurrence of the marker followed by a word character; otherwise
it returns exactly the word-character run following the first such occurrence.
Any non-None result is a nonempty token of word characters, so the output set
is not restricted to the four colors. -/
theorem color_output_word_token (e : RawElement) :
    (e.colorClass = none ∨ e.colorClass = some none → extract_highlight_color e = none) ∧
    (∀ str : String, e.colorClass = some (some str) →
      ((∀ i, ¬ markerWordAt str.data i) → extract_highlight_color e = none) ∧
      (∀ i, markerWordAt str.data i → (∀ j < i, ¬ markerWordAt str.data j) →
        extract_highlight_color e
          = some ⟨((str.data.drop i).drop colorMarker.length).takeWhile isPyWord⟩)) ∧
    (∀ w, extract_highlight_color e = some w → w ≠ "" ∧ w.data.all isPyWord = true) := by
  refine ⟨?_, ?_, ?_⟩
  · rintro (h | h) <;> simp [extract_highlight_color, h, map_text_to_color, colorTokenSearch]
  · intro str hcc
    have hred : extract_highlight_color e
        = (colorTokenSearch str.data).map (fun w => (⟨w⟩ : String)) := by
      unfold extract_highlight_color
      rw [hcc]
      show map_text_to_color (some str) = _
      unfold map_text_to_color
      rfl
    constructor
    · intro hno
      rw [hred, colorTokenSearch_eq_none_of_no_hit str.data hno]
      rfl
    · intro i hi hfirst
      rw [hred, colorTokenSearch_eq_some_of_first_hit str.data i hi hfirst]
      rfl
  · intro w h
    rcases hcc : e.colorClass with _ | cls
    · have hred : extract_highlight_color e = none := by
        unfold extract_highlight_color; rw [hcc]
      rw [hred] at h; exact absurd h (by simp)
    · have hred : extract_highlight_color e = map_text_to_color cls := by
        unfold extract_highlight_color; rw [hcc]
      rw [hred] at h
      rcases hcls : cls with _ | str
      · rw [hcls] at h; simp [map_text_to_color, colorTokenSearch] at h
      · rw [hcls] at h
        have hred2 : map_text_to_color (some str)
            = (colorTokenSearch str.data).map (fun w => (⟨w⟩ : String)) := by
          unfold map_text_to_color; rfl
        rw [hred2] at h
        rcases hsearch : colorTokenSearch str.data with _ | w0
        · rw [hsearch] at h; simp at h
        · rw [hsearch] at h
          obtain ⟨hne, hall⟩ := colorTokenSearch_word _ _ hsearch
          simp only [Option.map_some'] at h
          injection h with h
          subst h
          refine ⟨?_, hall⟩
          intro heq
          exact hne (congrArg String.data heq)

/-- C6 amended witness at concrete inputs, exercising the three branches: an
absent marker element, a class string without a full marker occurrence, and a
class string whose first occurrence is followed by the token green. -/
theorem color_output_word_token_witness :
    extract_highlight_color { colorClass := none } = none
    ∧ extract_highlight_color { colorClass := some (some "kp-notebook-highlight") } = none
    ∧ extract_highlight_color greenElem = some "green" :=
  ⟨(color_output_word_token { colorClass := none }).1 (Or.inl rfl),
   ((color_output_word_token { colorClass := some (some "kp-notebook-highlight") }).2.1
       "kp-notebook-highlight" rfl).1
     (no_hit_of_all_lt _ (by decide)),
   (((color_output_word_token greenElem).2.1 "kp-notebook-highlight-green" rfl).2 0
       (by decide) (fun j hj => absurd hj (Nat.not_lt_zero j))).trans (by decide)⟩

/-- C8 counterexample: the underscore survives the code slug but not the
claimed character set, and a leading space is trimmed by the code but would
become a hyphen under the claimed procedure. -/
theorem slug_claim_counterexample :
    sanitize_filename "_" = "_" ∧ claimSlug "_" = "" ∧
    sanitize_filename " a" = "a" ∧ claimSlug " a" = "-a" := by
  decide

/-- C8 (amended): for every title, the slug equals the result of removing
exactly the characters outside word characters (letters, digits, underscore),
whitespace and hyphen, then trimming surrounding whitespace, then collapsing
every run of whitespace and hyphens into a single hyphen. -/
theorem sanitize_matches_amended_slug (title : String) :
    sanitize_filename title = amendedSlugSpec title := by
  unfold sanitize_filename amendedSlugSpec reSubClassRuns
  rw [reSubClassEach_nil_eq_filter, (reSubRunsGo_eq_collapseSpec _).1]
  have hp : (fun c => !nonSlugChar c) = (fun c => isPyWord c || pyIsSpace c || c = '-') := by
    funext c; simp [nonSlugChar]
  rw [hp]

/-- C9: the continuation-token reader yields None whenever either pagination
element is missing, and any non-None state carries a nonempty token string. -/
theorem next_page_state_guarded (p : Page) :
    (p.clsElem = none ∨ p.tokenElem = none → parse_next_page_state p = none) ∧
    (∀ st, parse_next_page_state p = some st → st.token ≠ "") := by
  constructor
  · rintro (h | h) <;> rcases hc : p.clsElem with _ | clsVal <;>
      simp [parse_next_page_state, h, hc]
  · intro st h
    rcases hc : p.clsElem with _ | clsVal
    · have hred : parse_next_page_state p = none := by
        unfold parse_next_page_state; rw [hc]
      rw [hred] at h; exact absurd h (by simp)
    · rcases ht : p.tokenElem with _ | tokVal
      · have hred : parse_next_page_state p = none := by
          unfold parse_next_page_state; rw [hc, ht]
        rw [hred] at h; exact absurd h (by simp)
      · have hred : parse_next_page_state p
            = if pyTruthyOptStr tokVal = true then
                some { contentLimitState := clsVal, token := pyStrOfOpt tokVal }
              else none := by
          unfold parse_next_page_state; rw [hc, ht]
        rw [hred] at h
        by_cases htr : pyTruthyOptStr tokVal = true
        · rw [if_pos htr] at h
          injection h with h
          subst h
          rcases tokVal with _ | s
          · simp [pyTruthyOptStr] at htr
          · simpa [pyStrOfOpt, pyTruthyOptStr] using htr
        · rw [if_neg htr] at h
          simp at h

/-- C9 witness: a missing content-limit element yields None even with a token
present, and a produced state has a nonempty token. -/
theorem next_page_state_guarded_witness :
    parse_next_page_state { clsElem := none, tokenElem := some (some "t") } = none ∧
    ({ contentLimitState := some "c", token := "t" } : PageState).token ≠ "" :=
  ⟨(next_page_state_guarded _).1 (Or.inl rfl),
   (next_page_state_guarded { clsElem := some (some "c"), tokenElem := some (some "t") }).2
     { contentLimitState := some "c", token := "t" } rfl⟩

/-- Shared concrete book with a valid catalog id. -/
def okBook : Book := { id := "1", title := "T", author := "Au", asin := some "B0" }

/-- Shared concrete book without a catalog id. -/
def noAsinBook : Book := { id := "1", title := "T", author := "Au", asin := none }

/-- A page that fetches fine but has no highlights and no continuation token. -/
def c3EmptyPage : Page := {}

/-- C3 counterexample: a precondition failure (book without catalog id) returns
the very same value as a successful walk that found zero highlights, so the
two outcomes are not distinguishable by the caller. -/
theorem precondition_not_distinguishable_counterexample :
    (extract_highlights_from_book true noAsinBook [c3EmptyPage]).1
      = (extract_highlights_from_book true okBook [c3EmptyPage]).1 ∧
    (extract_highlights_from_book true okBook [c3EmptyPage]).1 = .ok [] := by
  constructor <;> rfl

/-- C3 (amended): a missing login or missing/empty catalog id makes the walker
return the empty list before any fetch; this value coincides with that of a
successful zero-highlight walk, so the caller cannot tell the two apart. -/
theorem precondition_returns_empty (isLoggedIn : Bool) (book : Book) (pages : List Page)
    (h : isLoggedIn = false ∨ book.asin = none ∨ book.asin = some "") :
    extract_highlights_from_book isLoggedIn book pages = (.ok [], []) := by
  have hv : validate_extraction_prerequisites isLoggedIn book = false := by
    rcases h with h | h | h <;>
      simp [validate_extraction_prerequisites, h, pyTruthyOptStr]
  unfold extract_highlights_from_book
  rw [hv]
  rfl

/-- C3 amended witness at a concrete input. -/
theorem precondition_returns_empty_witness :
    extract_highlights_from_book false okBook [] = (.ok [], []) :=
  precondition_returns_empty false okBook [] (Or.inl rfl)

/-- An element from which no text is recoverable. -/
def emptyTextElem : RawElement := { textElemText := some "", fullText := "" }

/-- A page containing one element with no recoverable text. -/
def c2Page : Page := { elements := [emptyTextElem] }

/-- C2: a page containing an element with no recoverable text makes the walker
raise (the None entry produced for that element reaches the final filtering
comprehension, whose attribute access fails), instead of returning the
filtered concatenation. -/
theorem walker_raises_on_textless_element :
    (extract_highlights_from_book true okBook [c2Page]).1 = .error PyErr.attributeError ∧
    extract_highlight_text emptyTextElem = "" := by
  constructor <;> rfl

/-- C1 concrete book for the round-trip failing input. -/
def c1Book : Book :=
  { id := "1", title := "The Great Gatsby", author := "F. Scott Fitzgerald", asin := some "B000FCKPHG" }

/-- C1 concrete highlight for the round-trip failing input. -/
def c1Highlight : Highlight :=
  { id := "h1", text := "So we beat on", location := some "Location 1234",
    page := some "180", note := some "note text", color := some "yellow" }

/-- C1 concrete summary payload with one flashcard. -/
def c1Summary : SummaryData :=
  { summary := "It is about hope.", keyPoints := ["a", "b"],
    flashcards := some [{ question := "Q?", answer := "A!" }] }

set_option maxRecDepth 8000 in
/-- C1: serializing a book with a flashcard and parsing the result loses the
flashcards entirely (the parser searches for a mangled section header that the
serializer never writes), while the other fields do come back; the required
round-trip property fails on the flashcards. -/
theorem roundtrip_loses_flashcards :
    (parseMarkdownContent (comprehensiveMarkdown c1Book [c1Highlight] (some c1Summary))).flashcards
      = []
    ∧ c1Summary.flashcards = some [{ question := "Q?", answer := "A!" }]
    ∧ (parseMarkdownContent (comprehensiveMarkdown c1Book [c1Highlight] (some c1Summary))).bookTitle
        = "The Great Gatsby"
    ∧ (parseMarkdownContent (comprehensiveMarkdown c1Book [c1Highlight] (some c1Summary))).keyPoints
        = ["a", "b"] := by
  exact ⟨by decide, rfl, by decide, by decide⟩

/-- A text without any occurrence of a marker cannot produce a line match. -/
theorem lineSearch_eq_none (marker : List Char) :
    ∀ s, hasMarkerOccurrence marker s = false → lineSearch marker s = none := by
  intro s
  induction s with
  | nil => intro _; rfl
  | cons c rest ih =>
      intro h
      simp only [hasMarkerOccurrence, Bool.or_eq_false_iff] at h
      obtain ⟨h1, h2⟩ := h
      have hstep : lineSearch marker (c :: rest) = lineSearch marker rest := by
        simp only [lineSearch, h1, Bool.false_and]
        rfl
      rw [hstep]
      exact ih h2

/-- C10: a Book with empty-string asin serializes byte-for-byte the same as
with asin None (the header line is omitted for both), and when the rest of the
document contains no occurrence of the ASIN marker, the parser reports catalog
id None for both documents. -/
theorem empty_asin_same_as_none (book : Book) (highlights : List Highlight)
    (summaryData : Option SummaryData) :
    comprehensiveMarkdown { book with asin := some "" } highlights summaryData
      = comprehensiveMarkdown { book with asin := none } highlights summaryData
    ∧ (hasMarkerOccurrence asinMarker
         (comprehensiveMarkdown { book with asin := none } highlights summaryData).data = false →
       (parseMarkdownContent
          (comprehensiveMarkdown { book with asin := some "" } highlights summaryData)).asin = none
       ∧ (parseMarkdownContent
            (comprehensiveMarkdown { book with asin := none } highlights summaryData)).asin = none) := by
  have h1 : pyTruthyOptStr (some "") = false := by decide
  have h2 : pyTruthyOptStr none = false := rfl
  have heq : comprehensiveMarkdown { book with asin := some "" } highlights summaryData
      = comprehensiveMarkdown { book with asin := none } highlights summaryData := by
    simp [comprehensiveMarkdown, h1, h2]
  refine ⟨heq, fun h => ?_⟩
  rw [heq]
  have : (parseMarkdownContent
      (comprehensiveMarkdown { book with asin := none } highlights summaryData)).asin = none := by
    unfold parseMarkdownContent
    simp only
    rw [lineSearch_eq_none _ _ h]
    rfl
  exact ⟨this, this⟩

/-- C10 witness at a concrete input whose document is free of the ASIN marker. -/
theorem empty_asin_same_as_none_witness :
    comprehensiveMarkdown { okBook with asin := some "" } [] none
      = comprehensiveMarkdown { okBook with asin := none } [] none
    ∧ (parseMarkdownContent (comprehensiveMarkdown { okBook with asin := some "" } [] none)).asin
        = none :=
  ⟨(empty_asin_same_as_none okBook [] none).1,
   ((empty_asin_same_as_none okBook [] none).2 (by decide)).1⟩

/-- The fetch log of the walker restricted to the extract/finish split: the
finishing comprehension never changes the log. -/
theorem finishWalk_snd (pr : List (Option Highlight) × List String) :
    (finishWalk pr).2 = pr.2 := by
  unfold finishWalk
  split <;> rfl

/-- Under a clean token chain (every page before the last carries a readable
continuation state, the last does not, every fetch succeeds) the walker log is
one url per page: the first built without a token, each subsequent one built
from the state read off the previous page. -/
theorem walkPages_log (book : Book) :
    ∀ (pages : List Page) (st : Option PageState) (n : Nat),
      pages ≠ [] →
      (∀ p ∈ pages, p.fetchFails = false) →
      (∀ p ∈ pages.dropLast, (parse_next_page_state p).isSome) →
      (∀ p, pages.getLast? = some p → parse_next_page_state p = none) →
      (walkPages book pages st n).2
        = highlights_url book st
            :: pages.dropLast.map (fun p => highlights_url book (parse_next_page_state p)) := by
  intro pages
  induction pages with
  | nil => intro st n hne _ _ _; exact absurd rfl hne
  | cons p rest ih =>
      intro st n _ hfetch htok hlast
      have hpf : p.fetchFails = false := hfetch p (List.mem_cons_self _ _)
      rcases rest with _ | ⟨q, rest2⟩
      · have hnone : parse_next_page_state p = none := hlast p rfl
        simp [walkPages, extract_highlights_from_page, hpf, hnone]
      · have hsome : (parse_next_page_state p).isSome :=
          htok p (by simp)
        obtain ⟨stp, hstp⟩ := Option.isSome_iff_exists.mp hsome
        have ihh := ih (some stp) (n + 1) (by simp)
          (fun r hr => hfetch r (List.mem_cons_of_mem _ hr))
          (fun r hr => htok r (by simp [List.dropLast_cons₂]; exact Or.inr hr))
          (fun r hr => hlast r (by rw [List.getLast?_cons_cons]; exact hr))
        rw [List.dropLast_cons₂, List.map_cons, hstp, ← ihh]
        simp [walkPages, extract_highlights_from_page, hpf, hstp]

/-- C5: with every page but the last yielding a continuation token and the
last yielding none, the walker issues exactly one fetch per page: the first
request carries no token, each subsequent request is built from the state
(contentLimitState and token) read off the previous page, and the loop
terminates after the last page. -/
theorem one_fetch_per_page (isLoggedIn : Bool) (book : Book) (pages : List Page)
    (hlog : isLoggedIn = true)
    (hasin : pyTruthyOptStr book.asin = true)
    (hne : pages ≠ [])
    (hfetch : ∀ p ∈ pages, p.fetchFails = false)
    (htok : ∀ p ∈ pages.dropLast, (parse_next_page_state p).isSome)
    (hlast : ∀ p, pages.getLast? = some p → parse_next_page_state p = none) :
    (extract_highlights_from_book isLoggedIn book pages).2
      = highlights_url book none
          :: pages.dropLast.map (fun p => highlights_url book (parse_next_page_state p))
    ∧ (extract_highlights_from_book isLoggedIn book pages).2.length = pages.length := by
  have hv : validate_extraction_prerequisites isLoggedIn book = true := by
    simp [validate_extraction_prerequisites, hlog, hasin]
  have hred : extract_highlights_from_book isLoggedIn book pages
      = finishWalk (walkPages book pages none 1) := by
    unfold extract_highlights_from_book
    rw [hv]
    rfl
  have hlogeq : (extract_highlights_from_book isLoggedIn book pages).2
      = highlights_url book none
          :: pages.dropLast.map (fun p => highlights_url book (parse_next_page_state p)) := by
    rw [hred, finishWalk_snd, walkPages_log book pages none 1 hne hfetch htok hlast]
  refine ⟨hlogeq, ?_⟩
  rw [hlogeq]
  have hpos : 0 < pages.length := List.length_pos.mpr hne
  simp [List.length_dropLast]
  omega

/-- Concrete two-page token chain for the C5 witness. -/
def c5Page1 : Page := { clsElem := some (some "c"), tokenElem := some (some "t") }

/-- Concrete last page without a token for the C5 witness. -/
def c5Page2 : Page := {}

/-- C5 witness: a two-page chain is fetched with exactly two requests, the
second carrying the state read off the first page. -/
theorem one_fetch_per_page_witness :
    (extract_highlights_from_book true okBook [c5Page1, c5Page2]).2
      = highlights_url okBook none
          :: [c5Page1, c5Page2].dropLast.map
               (fun p => highlights_url okBook (parse_next_page_state p))
    ∧ (extract_highlights_from_book true okBook [c5Page1, c5Page2]).2.length
        = [c5Page1, c5Page2].length :=
  one_fetch_per_page true okBook [c5Page1, c5Page2] rfl (by decide) (by decide)
    (by decide) (by decide) (by decide)

/-- Reference accumulation for the partial-progress property: the raw per-page
extraction results of a page list, pages numbered from n. -/
def accPages (book : Book) : Nat → List Page → List (Option Highlight)
  | _, [] => []
  | n, p :: rest =>
      p.elements.mapIdx (fun i e => extract_highlight_data e i book n)
        ++ accPages book (n + 1) rest

/-- A failing fetch stops the walk: the loop keeps exactly the raw entries of
the prior successful pages and fetches nothing after the failing page. -/
theorem walkPages_failStop (book : Book) :
    ∀ (good : List Page) (bad : Page) (rest : List Page) (st : Option PageState) (n : Nat),
      (∀ p ∈ good, p.fetchFails = false ∧ (parse_next_page_state p).isSome) →
      bad.fetchFails = true →
      (walkPages book (good ++ bad :: rest) st n).1 = accPages book n good ∧
      (walkPages book (good ++ bad :: rest) st n).2.length = good.length + 1 := by
  intro good
  induction good with
  | nil =>
      intro bad rest st n _ hbad
      refine ⟨?_, ?_⟩ <;> simp [walkPages, extract_highlights_from_page, hbad, accPages]
  | cons p good ih =>
      intro bad rest st n hgood hbad
      obtain ⟨hpf, hsome⟩ := hgood p (List.mem_cons_self _ _)
      obtain ⟨stp, hstp⟩ := Option.isSome_iff_exists.mp hsome
      have ihh := ih bad rest (some stp) (n + 1)
        (fun q hq => hgood q (List.mem_cons_of_mem _ hq)) hbad
      refine ⟨?_, ?_⟩
      · simp [walkPages, extract_highlights_from_page, hpf, hstp, accPages, ihh.1]
      · simp [walkPages, extract_highlights_from_page, hpf, hstp, ihh.2]

/-- An element with recoverable text always assembles into a highlight keeping
that text. -/
theorem extract_highlight_data_of_text (e : RawElement) (i : Nat) (book : Book) (n : Nat)
    (h : extract_highlight_text e ≠ "") :
    ∃ hl, extract_highlight_data e i book n = some hl ∧ hl.text = extract_highlight_text e := by
  simp only [extract_highlight_data]
  rw [if_neg (by simp [h])]
  exact ⟨_, rfl, rfl⟩

/-- When no element of the prior pages is textless, every accumulated raw entry
is a highlight with truthy text. -/
theorem accPages_all_textful (book : Book) :
    ∀ (good : List Page) (n : Nat),
      (∀ p ∈ good, ∀ e ∈ p.elements, extract_highlight_text e ≠ "") →
      ∀ oh ∈ accPages book n good, ∃ h, oh = some h ∧ h.text ≠ "" := by
  intro good
  induction good with
  | nil => intro n _ oh hoh; simp [accPages] at hoh
  | cons p good ih =>
      intro n htext oh hoh
      simp only [accPages, List.mem_append] at hoh
      rcases hoh with hoh | hoh
      · have hmem : ∀ (els : List RawElement) (f : Nat → RawElement → Option Highlight),
            (∀ i e, e ∈ els → ∃ h, f i e = some h ∧ h.text ≠ "") →
            ∀ oh ∈ els.mapIdx f, ∃ h, oh = some h ∧ h.text ≠ "" := by
          intro els
          induction els with
          | nil => intro f _ oh hoh; simp at hoh
          | cons e els ihe =>
              intro f hf oh hoh
              rw [List.mapIdx_cons] at hoh
              rcases List.mem_cons.mp hoh with hoh | hoh
              · exact hoh ▸ hf 0 e (List.mem_cons_self _ _)
              · exact ihe (fun i => f (i + 1))
                  (fun i e2 he2 => hf (i + 1) e2 (List.mem_cons_of_mem _ he2)) oh hoh
        refine hmem p.elements _ ?_ oh hoh
        intro i e he
        have htxt := htext p (List.mem_cons_self _ _) e he
        obtain ⟨hl, hdata, htext2⟩ := extract_highlight_data_of_text e i book n htxt
        exact ⟨hl, hdata, htext2 ▸ htxt⟩
      · exact ih (n + 1) (fun q hq => htext q (List.mem_cons_of_mem _ hq)) oh hoh

/-- C4 (amended): when a fetch fails after a run of successful pages on which
every element has recoverable text, the walker returns exactly the highlights
accumulated from those prior pages, lets no exception escape, and issues no
fetch beyond the failing one. -/
theorem partial_progress_on_fetch_failure (isLoggedIn : Bool) (book : Book)
    (good : List Page) (bad : Page) (rest : List Page)
    (hlog : isLoggedIn = true) (hasin : pyTruthyOptStr book.asin = true)
    (hgood : ∀ p ∈ good, p.fetchFails = false ∧ (parse_next_page_state p).isSome)
    (htext : ∀ p ∈ good, ∀ e ∈ p.elements, extract_highlight_text e ≠ "")
    (hbad : bad.fetchFails = true) :
    (extract_highlights_from_book isLoggedIn book (good ++ bad :: rest)).1
      = .ok ((accPages book 1 good).filterMap id)
    ∧ (extract_highlights_from_book isLoggedIn book (good ++ bad :: rest)).2.length
        = good.length + 1 := by
  have hv : validate_extraction_prerequisites isLoggedIn book = true := by
    simp [validate_extraction_prerequisites, hlog, hasin]
  have hred : extract_highlights_from_book isLoggedIn book (good ++ bad :: rest)
      = finishWalk (walkPages book (good ++ bad :: rest) none 1) := by
    unfold extract_highlights_from_book
    rw [hv]
    rfl
  obtain ⟨hw1, hw2⟩ := walkPages_failStop book good bad rest none 1 hgood hbad
  have hall := accPages_all_textful book good 1 htext
  have hnone : (accPages book 1 good).any (fun h => h.isNone) = false := by
    rw [List.any_eq_false]
    intro oh hoh
    obtain ⟨h, heq, _⟩ := hall oh hoh
    subst heq
    simp
  have hfm : ((accPages book 1 good).filterMap id).filter (fun h => h.text != "")
      = (accPages book 1 good).filterMap id := by
    rw [List.filter_eq_self]
    intro h hmem
    rw [List.mem_filterMap] at hmem
    obtain ⟨oh, hoh, hid⟩ := hmem
    obtain ⟨h2, heq, htxt⟩ := hall oh hoh
    subst heq
    simp only [id] at hid
    injection hid with hid
    subst hid
    exact bne_iff_ne.mpr htxt
  constructor
  · rw [hred]
    unfold finishWalk
    rw [hw1, hnone]
    simp [hfm]
  · rw [hred, finishWalk_snd, hw2]

/-- Page with one ordinary element and a continuation token, for the C4 witness. -/
def c4GoodPage : Page :=
  { elements := [{ textElemText := some "Hello" }],
    clsElem := some (some "c"), tokenElem := some (some "t") }

/-- Page whose fetch fails. -/
def c4BadPage : Page := { fetchFails := true }

/-- C4 amended witness: one successful page then a failing fetch keeps the one
highlight and stops after two fetches. -/
theorem partial_progress_on_fetch_failure_witness :
    (extract_highlights_from_book true okBook [c4GoodPage, c4BadPage]).1
      = .ok ((accPages okBook 1 [c4GoodPage]).filterMap id)
    ∧ (extract_highlights_from_book true okBook [c4GoodPage, c4BadPage]).2.length
        = [c4GoodPage].length + 1 :=
  partial_progress_on_fetch_failure true okBook [c4GoodPage] c4BadPage [] rfl (by decide)
    (by decide) (by decide) (by decide)

/-- Page with a textless element and a continuation token, exercising the C4
text corner case. -/
def c4EmptyTextPage : Page :=
  { elements := [emptyTextElem], clsElem := some (some "c"), tokenElem := some (some "t") }

/-- C4 counterexample: with a prior successful page containing a textless
element and then a failing fetch, the walker does not return the accumulated
highlights at all: the AttributeError from the final comprehension escapes. -/
theorem fetch_failure_claim_counterexample :
    (extract_highlights_from_book true okBook [c4EmptyTextPage, c4BadPage]).1
      = .error PyErr.attributeError := by
  rfl

/-!
Development for claim C7: flashcards blocks with an unmatched question marker.

A flashcards block is modelled as a list of labelled blocks in the layout the
serializer uses, where an absent answer models a question marker Qn with no
matching answer marker An.  The texts are clean: nonempty, single line, free
of the asterisk and hash markup characters.
-/

/-- One flashcard block of a document: digit label, question text, optional
answer text (None models a question marker with no matching answer marker). -/
structure FlashItem where
  label : List Char
  q : List Char
  a : Option (List Char)
  deriving Repr, DecidableEq

/-- Separator the serializer writes after each flashcard block: a blank line,
a rule, a blank line. -/
def sepChars : List Char := ['\n', '\n', '-', '-', '-', '\n', '\n']

/-- Rendering of one flashcard block in the serializer layout. -/
def renderItem (it : FlashItem) : List Char :=
  ['*', '*', 'Q'] ++ it.label ++ [':', '*', '*', ' '] ++ it.q ++
  (match it.a with
   | some a => ['\n', '\n', '*', '*', 'A'] ++ it.label ++ [':', '*', '*', ' '] ++ a
   | none => []) ++ sepChars

/-- Rendering of a flashcards block. -/
def renderItems : List FlashItem → List Char
  | [] => []
  | it :: rest => renderItem it ++ renderItems rest

/-- Clean text: nonempty, single line, free of markup characters. -/
def cleanTxt (t : List Char) : Prop :=
  t ≠ [] ∧ ∀ c ∈ t, c ≠ '\n' ∧ c ≠ '*' ∧ c ≠ '#'

/-- Clean optional answer. -/
def cleanAns : Option (List Char) → Prop
  | none => True
  | some a => cleanTxt a

instance cleanTxtDec (t : List Char) : Decidable (cleanTxt t) :=
  inferInstanceAs (Decidable (t ≠ [] ∧ ∀ c ∈ t, c ≠ '\n' ∧ c ≠ '*' ∧ c ≠ '#'))

instance cleanAnsDec : (o : Option (List Char)) → Decidable (cleanAns o)
  | none => isTrue trivial
  | some a => inferInstanceAs (Decidable (cleanTxt a))

/-- Clean flashcard block: clean texts and a nonempty digit label. -/
def CleanItem (it : FlashItem) : Prop :=
  cleanTxt it.q ∧ cleanAns it.a ∧ it.label ≠ [] ∧ it.label.all Char.isDigit = true

/-- Clean flashcards block. -/
def CleanItems (items : List FlashItem) : Prop := ∀ it ∈ items, CleanItem it

instance cleanItemDec (it : FlashItem) : Decidable (CleanItem it) :=
  inferInstanceAs (Decidable (cleanTxt it.q ∧ cleanAns it.a ∧ it.label ≠ []
    ∧ it.label.all Char.isDigit = true))

instance cleanItemsDec (items : List FlashItem) : Decidable (CleanItems items) :=
  inferInstanceAs (Decidable (∀ it ∈ items, CleanItem it))

/-- Prefix test along equal heads. -/
theorem isPrefixOf_cons_same (c : Char) (m t : List Char) :
    (c :: m).isPrefixOf (c :: t) = m.isPrefixOf t := by
  simp [List.isPrefixOf]

/-- Prefix test along distinct heads. -/
theorem isPrefixOf_cons_ne (c e : Char) (m t : List Char) (h : c ≠ e) :
    (c :: m).isPrefixOf (e :: t) = false := by
  simp [List.isPrefixOf, beq_eq_false_iff_ne.mpr h]

/-- A list is a prefix of itself extended. -/
theorem isPrefixOf_append_self (m t : List Char) : m.isPrefixOf (m ++ t) = true := by
  induction m with
  | nil => simp [List.isPrefixOf]
  | cons c m ih => simpa [List.isPrefixOf] using ih

/-- A successful prefix test decomposes the larger list. -/
theorem eq_append_of_isPrefixOf (m : List Char) :
    ∀ s, m.isPrefixOf s = true → s = m ++ s.drop m.length := by
  induction m with
  | nil => intro s _; simp
  | cons c m ih =>
      intro s h
      rcases s with _ | ⟨b, t⟩
      · simp [List.isPrefixOf] at h
      · simp only [List.isPrefixOf, Bool.and_eq_true, beq_iff_eq] at h
        obtain ⟨rfl, h2⟩ := h
        simpa using ih t h2

/-- Digit strings terminated by a colon: distinct digit labels can never make
the backreferenced marker match. -/
theorem digits_colon_mismatch (d : List Char) :
    ∀ (l u v : List Char), d.all Char.isDigit = true → l.all Char.isDigit = true →
      d ≠ l → (d ++ ':' :: u).isPrefixOf (l ++ ':' :: v) = false := by
  induction d with
  | nil =>
      intro l u v _ hl hne
      rcases l with _ | ⟨e, l2⟩
      · exact absurd rfl hne
      · have he : Char.isDigit e = true := by
          simp [List.all_cons] at hl; exact hl.1
        have : (':' : Char) ≠ e := by
          intro heq
          rw [← heq] at he
          simp [Char.isDigit] at he
        simpa using isPrefixOf_cons_ne ':' e u (l2 ++ ':' :: v) this
  | cons c d2 ih =>
      intro l u v hd hl hne
      have hc : Char.isDigit c = true := by
        simp [List.all_cons] at hd; exact hd.1
      rcases l with _ | ⟨e, l2⟩
      · have : c ≠ ':' := by
          intro heq
          rw [heq] at hc
          simp [Char.isDigit] at hc
        simpa using isPrefixOf_cons_ne c ':' (d2 ++ ':' :: u) v this
      · by_cases hce : c = e
        · subst hce
          rw [List.all_cons, Bool.and_eq_true] at hd hl
          have hd2 : d2.all Char.isDigit = true := hd.2
          have hl2 : l2.all Char.isDigit = true := hl.2
          have hne2 : d2 ≠ l2 := by
            intro heq; exact hne (by rw [heq])
          simpa [isPrefixOf_cons_same] using ih l2 u v hd2 hl2 hne2
        · simpa using isPrefixOf_cons_ne c e (d2 ++ ':' :: u) (l2 ++ ':' :: v) hce

/-- Scanning step of findSplit past a position where the marker does not match. -/
theorem findSplit_cons_none (m : List Char) (c : Char) (t : List Char)
    (h : m.isPrefixOf (c :: t) = false) (h2 : findSplit m t = none) :
    findSplit m (c :: t) = none := by
  simp [findSplit, h, h2]

/-- Scanning of findSplit for a newline-headed marker past newline-free text. -/
theorem findSplit_skip_no_nl_none (m : List Char) (m2 : List Char) (hm : m = '\n' :: m2) :
    ∀ (x y : List Char), (∀ c ∈ x, c ≠ '\n') →
      findSplit m y = none → findSplit m (x ++ y) = none := by
  intro x
  induction x with
  | nil => intro y _ h; simpa using h
  | cons c x2 ih =>
      intro y hx h
      have hc : c ≠ '\n' := hx c (List.mem_cons_self _ _)
      refine findSplit_cons_none m c (x2 ++ y) ?_ (ih y (fun c2 h2 => hx c2 (List.mem_cons_of_mem _ h2)) h)
      rw [hm]
      exact isPrefixOf_cons_ne _ _ _ _ (fun heq => hc heq.symm)

/-- Scanning of findSplit for a newline-headed marker with a hit right after
newline-free text: the first occurrence is taken and the remainder returned. -/
theorem findSplit_skip_no_nl_hit (m : List Char) (m2 : List Char) (hm : m = '\n' :: m2) :
    ∀ (x z : List Char), (∀ c ∈ x, c ≠ '\n') → z ≠ [] →
      findSplit m (x ++ m ++ z) = some (x, z) := by
  intro x
  induction x with
  | nil =>
      intro z _ hz
      rw [List.nil_append, hm]
      show findSplit ('\n' :: m2) (('\n' :: m2) ++ z) = some ([], z)
      rw [List.cons_append]
      have hpre : ('\n' :: m2).isPrefixOf ('\n' :: (m2 ++ z)) = true := by
        simpa using isPrefixOf_append_self ('\n' :: m2) z
      have hdrop : ('\n' :: (m2 ++ z)).drop ('\n' :: m2).length = z := by
        simpa using (List.drop_left m2 z)
      simp [findSplit, hpre, hdrop, hz]
  | cons c x2 ih =>
      intro z hx hz
      have hc : c ≠ '\n' := hx c (List.mem_cons_self _ _)
      have ih2 := ih z (fun c2 h2 => hx c2 (List.mem_cons_of_mem _ h2)) hz
      have hpre : m.isPrefixOf (c :: (x2 ++ m ++ z)) = false := by
        rw [hm]
        exact isPrefixOf_cons_ne _ _ _ _ (fun heq => hc heq.symm)
      calc findSplit m ((c :: x2) ++ m ++ z)
          = findSplit m (c :: (x2 ++ m ++ z)) := by simp
        _ = (findSplit m (x2 ++ m ++ z)).map (fun pr => (c :: pr.1, pr.2)) := by
              simp only [findSplit, hpre, Bool.false_and]
              rw [if_neg (by simp)]
        _ = some (c :: x2, z) := by rw [ih2]; rfl

/-- Digit characters are not newlines. -/
theorem digit_ne_nl {c : Char} (h : Char.isDigit c = true) : c ≠ '\n' := by
  intro heq; subst heq; exact absurd h (by decide)

/-- Characters of a digit string are not newlines. -/
theorem digits_no_nl {l : List Char} (h : l.all Char.isDigit = true) :
    ∀ c ∈ l, c ≠ '\n' :=
  fun c hc => digit_ne_nl (List.all_eq_true.mp h c hc)

/-- Cons normal form of the answer marker. -/
theorem aMarker_shape (d : List Char) :
    aMarker d = '\n' :: '\n' :: '*' :: '*' :: 'A' :: (d ++ [':', '*', '*', ' ']) := by
  simp [aMarker]

/-- The answer marker does not occur across a separator whose continuation is
empty or starts a question block. -/
theorem findSplit_aMarker_sep_none (d : List Char) (R : List Char)
    (hR : R = [] ∨ ∃ t, R = '*' :: '*' :: 'Q' :: t)
    (h : findSplit (aMarker d) R = none) :
    findSplit (aMarker d) (sepChars ++ R) = none := by
  have hm := aMarker_shape d
  have h6 : (aMarker d).isPrefixOf ('\n' :: R) = false := by
    rw [hm, isPrefixOf_cons_same]
    rcases hR with rfl | ⟨t, rfl⟩
    · simp [List.isPrefixOf]
    · exact isPrefixOf_cons_ne _ _ _ _ (by decide)
  have h5 : (aMarker d).isPrefixOf ('\n' :: '\n' :: R) = false := by
    rw [hm, isPrefixOf_cons_same, isPrefixOf_cons_same]
    rcases hR with rfl | ⟨t, rfl⟩
    · simp [List.isPrefixOf]
    · rw [isPrefixOf_cons_same, isPrefixOf_cons_same]
      exact isPrefixOf_cons_ne _ _ _ _ (by decide)
  have hdash : ∀ T : List Char, (aMarker d).isPrefixOf ('-' :: T) = false := by
    intro T; rw [hm]; exact isPrefixOf_cons_ne _ _ _ _ (by decide)
  have h1 : (aMarker d).isPrefixOf ('\n' :: '-' :: '-' :: '-' :: '\n' :: '\n' :: R) = false := by
    rw [hm, isPrefixOf_cons_same]
    exact isPrefixOf_cons_ne _ _ _ _ (by decide)
  have h0 : (aMarker d).isPrefixOf ('\n' :: '\n' :: '-' :: '-' :: '-' :: '\n' :: '\n' :: R) = false := by
    rw [hm, isPrefixOf_cons_same, isPrefixOf_cons_same]
    exact isPrefixOf_cons_ne _ _ _ _ (by decide)
  show findSplit (aMarker d) ('\n' :: '\n' :: '-' :: '-' :: '-' :: '\n' :: '\n' :: R) = none
  refine findSplit_cons_none _ _ _ h0 ?_
  refine findSplit_cons_none _ _ _ h1 ?_
  refine findSplit_cons_none _ _ _ (hdash _) ?_
  refine findSplit_cons_none _ _ _ (hdash _) ?_
  refine findSplit_cons_none _ _ _ (hdash _) ?_
  refine findSplit_cons_none _ _ _ h5 ?_
  exact findSplit_cons_none _ _ _ h6 h

/-- The answer marker does not occur inside the label head of a question block. -/
theorem findSplit_aMarker_qhead (d label X : List Char)
    (hl : label.all Char.isDigit = true)
    (h : findSplit (aMarker d) X = none) :
    findSplit (aMarker d) ('*' :: '*' :: 'Q' :: (label ++ ':' :: '*' :: '*' :: ' ' :: X)) = none := by
  have hm := aMarker_shape d
  have hne : ∀ (c : Char) (T : List Char), c ≠ '\n' → (aMarker d).isPrefixOf (c :: T) = false := by
    intro c T hc
    rw [hm]
    exact isPrefixOf_cons_ne _ _ _ _ (fun heq => hc heq.symm)
  have hstep : findSplit (aMarker d) (':' :: '*' :: '*' :: ' ' :: X) = none := by
    refine findSplit_cons_none _ _ _ (hne _ _ (by decide)) ?_
    refine findSplit_cons_none _ _ _ (hne _ _ (by decide)) ?_
    refine findSplit_cons_none _ _ _ (hne _ _ (by decide)) ?_
    exact findSplit_cons_none _ _ _ (hne _ _ (by decide)) h
  have hskip : findSplit (aMarker d) (label ++ ':' :: '*' :: '*' :: ' ' :: X) = none :=
    findSplit_skip_no_nl_none _ _ hm label _ (digits_no_nl hl) hstep
  refine findSplit_cons_none _ _ _ (hne _ _ (by decide)) ?_
  refine findSplit_cons_none _ _ _ (hne _ _ (by decide)) ?_
  exact findSplit_cons_none _ _ _ (hne _ _ (by decide)) hskip

/-- The answer marker for one label does not occur inside the answer marker of
a distinct label. -/
theorem findSplit_aMarker_amid (d label Y : List Char)
    (hd : d.all Char.isDigit = true) (hl : label.all Char.isDigit = true)
    (hne : d ≠ label)
    (h : findSplit (aMarker d) Y = none) :
    findSplit (aMarker d) (aMarker label ++ Y) = none := by
  have hm := aMarker_shape d
  have hnec : ∀ (c : Char) (T : List Char), c ≠ '\n' → (aMarker d).isPrefixOf (c :: T) = false := by
    intro c T hc
    rw [hm]
    exact isPrefixOf_cons_ne _ _ _ _ (fun heq => hc heq.symm)
  have hshape : aMarker label ++ Y
      = '\n' :: '\n' :: '*' :: '*' :: 'A' :: (label ++ ':' :: '*' :: '*' :: ' ' :: Y) := by
    simp [aMarker]
  rw [hshape]
  have hstep : findSplit (aMarker d) (':' :: '*' :: '*' :: ' ' :: Y) = none := by
    refine findSplit_cons_none _ _ _ (hnec _ _ (by decide)) ?_
    refine findSplit_cons_none _ _ _ (hnec _ _ (by decide)) ?_
    refine findSplit_cons_none _ _ _ (hnec _ _ (by decide)) ?_
    exact findSplit_cons_none _ _ _ (hnec _ _ (by decide)) h
  have hskip : findSplit (aMarker d) (label ++ ':' :: '*' :: '*' :: ' ' :: Y) = none :=
    findSplit_skip_no_nl_none _ _ hm label _ (digits_no_nl hl) hstep
  have h0 : (aMarker d).isPrefixOf
      ('\n' :: '\n' :: '*' :: '*' :: 'A' :: (label ++ ':' :: '*' :: '*' :: ' ' :: Y)) = false := by
    rw [hm, isPrefixOf_cons_same, isPrefixOf_cons_same, isPrefixOf_cons_same,
      isPrefixOf_cons_same, isPrefixOf_cons_same]
    have := digits_colon_mismatch d label ['*', '*', ' '] ('*' :: '*' :: ' ' :: Y) hd hl hne
    simpa using this
  have h1 : (aMarker d).isPrefixOf
      ('\n' :: '*' :: '*' :: 'A' :: (label ++ ':' :: '*' :: '*' :: ' ' :: Y)) = false := by
    rw [hm, isPrefixOf_cons_same]
    exact isPrefixOf_cons_ne _ _ _ _ (by decide)
  refine findSplit_cons_none _ _ _ h0 ?_
  refine findSplit_cons_none _ _ _ h1 ?_
  refine findSplit_cons_none _ _ _ (hnec _ _ (by decide)) ?_
  refine findSplit_cons_none _ _ _ (hnec _ _ (by decide)) ?_
  exact findSplit_cons_none _ _ _ (hnec _ _ (by decide)) hskip

/-- Cons normal form of an unanswered rendered block followed by a continuation. -/
theorem renderItem_unanswered_shape (l q R : List Char) :
    renderItem ⟨l, q, none⟩ ++ R
      = '*' :: '*' :: 'Q' :: (l ++ ':' :: '*' :: '*' :: ' ' :: (q ++ (sepChars ++ R))) := by
  simp [renderItem, sepChars]

/-- Cons normal form of an answered rendered block followed by a continuation. -/
theorem renderItem_answered_shape (l q av R : List Char) :
    renderItem ⟨l, q, some av⟩ ++ R
      = '*' :: '*' :: 'Q' ::
          (l ++ ':' :: '*' :: '*' :: ' ' :: (q ++ (aMarker l ++ (av ++ (sepChars ++ R))))) := by
  simp [renderItem, aMarker, sepChars]

/-- A rendered flashcards block is empty or starts with a question label. -/
theorem renderItems_shape (items : List FlashItem) :
    renderItems items = [] ∨ ∃ t, renderItems items = '*' :: '*' :: 'Q' :: t := by
  cases items with
  | nil => exact Or.inl rfl
  | cons it rest =>
      obtain ⟨l, q, a⟩ := it
      rcases a with _ | av
      · exact Or.inr ⟨_, renderItem_unanswered_shape l q (renderItems rest)⟩
      · exact Or.inr ⟨_, renderItem_answered_shape l q av (renderItems rest)⟩

/-- The answer marker of a label foreign to every block never occurs in a
rendered flashcards block. -/
theorem findSplit_aMarker_renderItems (d : List Char) (hd : d.all Char.isDigit = true) :
    ∀ items : List FlashItem, CleanItems items →
      (∀ it ∈ items, it.label ≠ d) →
      findSplit (aMarker d) (renderItems items) = none := by
  intro items
  induction items with
  | nil => intro _ _; rfl
  | cons it rest ih =>
      intro hclean hne
      obtain ⟨hq, ha, hlne, hld⟩ := hclean it (List.mem_cons_self _ _)
      have hrest := ih (fun j hj => hclean j (List.mem_cons_of_mem _ hj))
        (fun j hj => hne j (List.mem_cons_of_mem _ hj))
      have hsep := findSplit_aMarker_sep_none d _ (renderItems_shape rest) hrest
      have hqnl : ∀ c ∈ it.q, c ≠ '\n' := fun c hc => (hq.2 c hc).1
      obtain ⟨l, q, a⟩ := it
      show findSplit (aMarker d) (renderItem ⟨l, q, a⟩ ++ renderItems rest) = none
      rcases a with _ | av
      · rw [renderItem_unanswered_shape]
        refine findSplit_aMarker_qhead d l _ hld ?_
        exact findSplit_skip_no_nl_none _ _ (aMarker_shape d) q _ hqnl hsep
      · have hav : cleanTxt av := ha
        have havnl : ∀ c ∈ av, c ≠ '\n' := fun c hc => (hav.2 c hc).1
        rw [renderItem_answered_shape]
        refine findSplit_aMarker_qhead d l _ hld ?_
        refine findSplit_skip_no_nl_none _ _ (aMarker_shape d) q _ hqnl ?_
        refine findSplit_aMarker_amid d l _ hd hld (fun heq => hne ⟨l, q, some av⟩ (List.mem_cons_self _ _) heq.symm) ?_
        exact findSplit_skip_no_nl_none _ _ (aMarker_shape d) av _ havnl hsep

/-- The pair lookahead fails on any suffix not starting with a newline. -/
theorem lookQA_cons_ne (c : Char) (t : List Char) (h : c ≠ '\n') :
    lookQA (c :: t) = false := by
  rw [lookQA,
    isPrefixOf_cons_ne _ _ _ _ (fun heq => h heq.symm),
    isPrefixOf_cons_ne _ _ _ _ (fun heq => h heq.symm)]
  rfl

/-- The pair lookahead succeeds at a separator. -/
theorem lookQA_sep (R : List Char) : lookQA (sepChars ++ R) = true := by
  show lookQA ('\n' :: '\n' :: '-' :: '-' :: '-' :: '\n' :: '\n' :: R) = true
  simp [lookQA, List.isPrefixOf]

/-- The pair lookahead fails on the empty suffix (the end branch is handled by
the total split itself). -/
theorem lookQA_nil : lookQA [] = false := by
  simp [lookQA, List.isPrefixOf]

/-- Lazy split for the pair lookahead with a hit right after newline-free text. -/
theorem findLookSplit_lookQA_hit :
    ∀ (x y : List Char), (∀ c ∈ x, c ≠ '\n') → lookQA y = true →
      findLookSplit lookQA (x ++ y) = (x, y) := by
  intro x
  induction x with
  | nil =>
      intro y _ hy
      rcases y with _ | ⟨c, t⟩
      · exact absurd hy (by rw [lookQA_nil]; simp)
      · simp [findLookSplit, hy]
  | cons c x2 ih =>
      intro y hx hy
      have hc : c ≠ '\n' := hx c (List.mem_cons_self _ _)
      have hlook := lookQA_cons_ne c (x2 ++ y) hc
      simp [findLookSplit, hlook,
        ih y (fun c2 h2 => hx c2 (List.mem_cons_of_mem _ h2)) hy]

/-- Digit strings followed by a colon are their own maximal digit run. -/
theorem takeWhile_digits_colon (l : List Char) (hl : l.all Char.isDigit = true)
    (u : List Char) : (l ++ ':' :: u).takeWhile Char.isDigit = l := by
  induction l with
  | nil => simp [List.takeWhile_cons, show Char.isDigit ':' = false by decide]
  | cons c l ih =>
      rw [List.all_cons, Bool.and_eq_true] at hl
      simp [List.takeWhile_cons, hl.1, ih hl.2]

/-- Dropping a label, the colon and the bold-space markup reaches the question. -/
theorem drop_label_colon (l : List Char) (X : List Char) :
    (l ++ ':' :: '*' :: '*' :: ' ' :: X).drop (l.length + 4) = X := by
  induction l with
  | nil => simp [List.drop]
  | cons c l ih =>
      show (c :: (l ++ ':' :: '*' :: '*' :: ' ' :: X)).drop (l.length + 1 + 4) = X
      have harith : l.length + 1 + 4 = (l.length + 4) + 1 := by omega
      rw [harith, List.drop_succ_cons, ih]

/-- Evaluation of the pair matcher at an answered block: the lazy question
capture stops at the first answer marker (right after the single-line question),
the lazy answer capture stops at the first lookahead position (the separator),
and the captured digits are the label. -/
theorem matchQA_answered (label q av S : List Char)
    (hlne : label ≠ []) (hld : label.all Char.isDigit = true)
    (hq : cleanTxt q) (hav : cleanTxt av)
    (hlook : lookQA S = true) :
    matchQA ('*' :: '*' :: 'Q' ::
        (label ++ ':' :: '*' :: '*' :: ' ' :: (q ++ (aMarker label ++ (av ++ S)))))
      = some (label, q, av, S) := by
  obtain ⟨q0, qt, rfl⟩ : ∃ q0 qt, q = q0 :: qt := by
    rcases q with _ | ⟨q0, qt⟩
    · exact absurd rfl hq.1
    · exact ⟨q0, qt, rfl⟩
  obtain ⟨a0, at2, rfl⟩ : ∃ a0 at2, av = a0 :: at2 := by
    rcases av with _ | ⟨a0, at2⟩
    · exact absurd rfl hav.1
    · exact ⟨a0, at2, rfl⟩
  have hqt : ∀ c ∈ qt, c ≠ '\n' := fun c hc => (hq.2 c (List.mem_cons_of_mem _ hc)).1
  have hat : ∀ c ∈ at2, c ≠ '\n' := fun c hc => (hav.2 c (List.mem_cons_of_mem _ hc)).1
  rw [matchQA]
  rw [if_pos (by simp [List.isPrefixOf])]
  simp only [List.drop_succ_cons, List.drop_zero]
  rw [takeWhile_digits_colon label hld]
  rw [if_pos ?hcond]
  case hcond =>
    rw [List.drop_left]
    rcases label with _ | ⟨c, l⟩
    · exact absurd rfl hlne
    · simp [List.isPrefixOf]
  rw [drop_label_colon]
  have hsplit : findSplit (aMarker label) (qt ++ (aMarker label ++ (a0 :: at2 ++ S)))
      = some (qt, a0 :: at2 ++ S) := by
    have h2 := findSplit_skip_no_nl_hit (aMarker label) _ (aMarker_shape label) qt
      (a0 :: at2 ++ S) hqt (by simp)
    rw [List.append_assoc] at h2
    exact h2
  show (match findSplit (aMarker label) (qt ++ (aMarker label ++ (a0 :: at2 ++ S))) with
        | none => none
        | some (qpre, post) =>
          match post with
          | [] => none
          | a1 :: arest =>
              let pr := findLookSplit lookQA arest
              some (label, q0 :: qpre, a1 :: pr.1, pr.2)) = some (label, q0 :: qt, a0 :: at2, S)
  rw [hsplit]
  show (let pr := findLookSplit lookQA (at2 ++ S)
        some (label, q0 :: qt, a0 :: pr.1, pr.2)) = some (label, q0 :: qt, a0 :: at2, S)
  rw [findLookSplit_lookQA_hit at2 S hat hlook]

/-- The pair matcher fails off an asterisk. -/
theorem matchQA_none_not_star (c : Char) (t : List Char) (h : c ≠ '*') :
    matchQA (c :: t) = none := by
  rw [matchQA, if_neg]
  rw [isPrefixOf_cons_ne _ _ _ _ (fun heq => h heq.symm)]
  simp

/-- The pair matcher fails on a lone asterisk. -/
theorem matchQA_none_star_not_star (c : Char) (t : List Char) (h : c ≠ '*') :
    matchQA ('*' :: c :: t) = none := by
  rw [matchQA, if_neg]
  rw [isPrefixOf_cons_same, isPrefixOf_cons_ne _ _ _ _ (fun heq => h heq.symm)]
  simp

/-- The pair matcher fails on a bold marker not followed by the Q label. -/
theorem matchQA_none_star_star_not_q (c : Char) (t : List Char) (h : c ≠ 'Q') :
    matchQA ('*' :: '*' :: c :: t) = none := by
  rw [matchQA, if_neg]
  rw [isPrefixOf_cons_same, isPrefixOf_cons_same,
    isPrefixOf_cons_ne _ _ _ _ (fun heq => h heq.symm)]
  simp

/-- The pair matcher fails at a question label whose answer marker occurs
nowhere in the remaining text. -/
theorem matchQA_none_no_amarker (label : List Char) (hlne : label ≠ [])
    (hld : label.all Char.isDigit = true)
    (q0 : Char) (qt X : List Char)
    (hfs : findSplit (aMarker label) (qt ++ X) = none) :
    matchQA ('*' :: '*' :: 'Q' :: (label ++ ':' :: '*' :: '*' :: ' ' :: (q0 :: (qt ++ X)))) = none := by
  rw [matchQA]
  rw [if_pos (by simp [List.isPrefixOf])]
  simp only [List.drop_succ_cons, List.drop_zero]
  rw [takeWhile_digits_colon label hld]
  rw [if_pos ?hcond]
  case hcond =>
    rw [List.drop_left]
    rcases label with _ | ⟨c, l⟩
    · exact absurd rfl hlne
    · simp [List.isPrefixOf]
  rw [drop_label_colon]
  show (match findSplit (aMarker label) (qt ++ X) with
        | none => none
        | some (qpre, post) =>
          match post with
          | [] => none
          | a1 :: arest =>
              let pr := findLookSplit lookQA arest
              some (label, q0 :: qpre, a1 :: pr.1, pr.2)) = none
  rw [hfs]

/-- The findall loop returns nothing on empty text, whatever the fuel. -/
theorem scanQA_nil (fuel : Nat) : scanQA fuel [] = [] := by
  cases fuel <;> rfl

/-- A successful findSplit decomposes its input around the marker, with a
nonempty remainder. -/
theorem findSplit_some_decomp (m : List Char) :
    ∀ t pre post, findSplit m t = some (pre, post) → t = pre ++ m ++ post := by
  intro t
  induction t with
  | nil => intro pre post h; simp [findSplit] at h
  | cons c rest ih =>
      intro pre post h
      rw [findSplit] at h
      by_cases hcond : (m.isPrefixOf (c :: rest) && !((c :: rest).drop m.length).isEmpty) = true
      · rw [if_pos hcond] at h
        injection h with h
        have hpre : pre = [] := (congrArg Prod.fst h).symm
        have hpost : post = (c :: rest).drop m.length := (congrArg Prod.snd h).symm
        subst hpre
        subst hpost
        have hp := (Bool.and_eq_true_iff.mp hcond).1
        simpa using eq_append_of_isPrefixOf m (c :: rest) hp
      · rw [if_neg hcond] at h
        rcases hfs : findSplit m rest with _ | pr2
        · rw [hfs] at h; simp at h
        · rw [hfs] at h
          simp only [Option.map_some'] at h
          injection h with h
          have hpre : pre = c :: pr2.1 := (congrArg Prod.fst h).symm
          have hpost : post = pr2.2 := (congrArg Prod.snd h).symm
          subst hpre
          subst hpost
          have := ih pr2.1 pr2.2 (by rw [hfs])
          rw [List.cons_append, List.cons_append, ← this]

/-- The lazy lookahead split decomposes its input. -/
theorem findLookSplit_decomp (look : List Char → Bool) :
    ∀ t, t = (findLookSplit look t).1 ++ (findLookSplit look t).2 := by
  intro t
  induction t with
  | nil => rfl
  | cons c rest ih =>
      rw [findLookSplit]
      by_cases hl : look (c :: rest) = true
      · rw [if_pos hl]
        rfl
      · rw [if_neg hl]
        simp only [List.cons_append]
        exact congrArg (c :: ·) ih

/-- A successful pair match strictly shrinks the scanned text. -/
theorem matchQA_some_shrink (s : List Char) (d q a suf : List Char)
    (h : matchQA s = some (d, q, a, suf)) : suf.length < s.length := by
  rw [matchQA] at h
  by_cases h1 : (['*', '*', 'Q'] : List Char).isPrefixOf s = true
  swap
  · rw [if_neg h1] at h; exact absurd h (by simp)
  rw [if_pos h1] at h
  by_cases h2 : (!(List.takeWhile Char.isDigit (s.drop 3)).isEmpty
      && [':', '*', '*', ' '].isPrefixOf
           ((s.drop 3).drop (List.takeWhile Char.isDigit (s.drop 3)).length)) = true
  swap
  · rw [if_neg h2] at h; exact absurd h (by simp)
  rw [if_pos h2] at h
  rcases hb : (s.drop 3).drop ((List.takeWhile Char.isDigit (s.drop 3)).length + 4)
    with _ | ⟨c, body⟩
  · rw [hb] at h; exact absurd h (by simp)
  rw [hb] at h
  replace h : (match findSplit (aMarker (List.takeWhile Char.isDigit (s.drop 3))) body with
      | none => none
      | some (qpre, post) =>
        match post with
        | [] => none
        | a0 :: arest =>
            let pr := findLookSplit lookQA arest
            some (List.takeWhile Char.isDigit (s.drop 3), c :: qpre, a0 :: pr.1, pr.2))
      = some (d, q, a, suf) := h
  rcases hfs : findSplit (aMarker (List.takeWhile Char.isDigit (s.drop 3))) body
    with _ | pr2
  · rw [hfs] at h; exact absurd h (by simp)
  rw [hfs] at h
  replace h : (match pr2.2 with
      | [] => none
      | a0 :: arest =>
          let pr := findLookSplit lookQA arest
          some (List.takeWhile Char.isDigit (s.drop 3), c :: pr2.1, a0 :: pr.1, pr.2))
      = some (d, q, a, suf) := h
  rcases hpost : pr2.2 with _ | ⟨a1, arest⟩
  · rw [hpost] at h; exact absurd h (by simp)
  rw [hpost] at h
  replace h : some (List.takeWhile Char.isDigit (s.drop 3), c :: pr2.1,
      a1 :: (findLookSplit lookQA arest).1, (findLookSplit lookQA arest).2)
      = some (d, q, a, suf) := h
  injection h with h
  have hsuf : suf = (findLookSplit lookQA arest).2 := by
    have h2 := congrArg (fun tu : List Char × List Char × List Char × List Char => tu.2.2.2) h
    simpa using h2.symm
  have hdec := findSplit_some_decomp _ body pr2.1 pr2.2 (by rw [hfs])
  have hldec := findLookSplit_decomp lookQA arest
  have hlen1 : suf.length ≤ arest.length := by
    rw [hsuf]
    conv_rhs => rw [hldec]
    simp
  have hlen2 : arest.length < pr2.2.length := by rw [hpost]; simp
  have hlen3 : pr2.2.length ≤ body.length := by
    rw [hdec]
    simp
    omega
  have hlen4 : body.length < s.length := by
    have hd3 : ((s.drop 3).drop ((List.takeWhile Char.isDigit (s.drop 3)).length + 4)).length
        ≤ (s.drop 3).length := by
      rw [List.length_drop]
      omega
    rw [hb] at hd3
    have hs3 : (s.drop 3).length ≤ s.length := by
      rw [List.length_drop]
      omega
    simp at hd3
    omega
  omega

/-- The findall loop is independent of the fuel once it covers the text length. -/
theorem scanQA_eq : ∀ (n : Nat) (s : List Char), s.length ≤ n →
    ∀ f g, s.length ≤ f → s.length ≤ g → scanQA f s = scanQA g s := by
  intro n
  induction n with
  | zero =>
      intro s hs f g _ _
      have hnil : s = [] := List.length_eq_zero.mp (Nat.le_zero.mp hs)
      subst hnil
      rw [scanQA_nil, scanQA_nil]
  | succ n ihn =>
      intro s hs f g hf hg
      rcases s with _ | ⟨c, rest⟩
      · rw [scanQA_nil, scanQA_nil]
      · rcases f with _ | f
        · simp at hf
        rcases g with _ | g
        · simp at hg
        show scanQA (f + 1) (c :: rest) = scanQA (g + 1) (c :: rest)
        simp only [scanQA]
        rcases hm : matchQA (c :: rest) with _ | ⟨d, q, a, suf⟩
        · show scanQA f rest = scanQA g rest
          have hr : rest.length ≤ n := by simp at hs; omega
          exact ihn rest hr f g (by simp at hf; omega) (by simp at hg; omega)
        · show (d, q, a) :: scanQA f suf = (d, q, a) :: scanQA g suf
          have hshrink := matchQA_some_shrink (c :: rest) d q a suf hm
          simp at hshrink hs hf hg
          exact congrArg _ (ihn suf (by omega) f g (by omega) (by omega))

/-- Canonical run of the findall loop with fuel the text length, the form used
by the Document Parser. -/
def runQA (s : List Char) : List (List Char × List Char × List Char) :=
  scanQA s.length s

/-- The canonical run steps over a position where the pair matcher fails. -/
theorem runQA_cons_none (c : Char) (t : List Char) (h : matchQA (c :: t) = none) :
    runQA (c :: t) = runQA t := by
  show scanQA (t.length + 1) (c :: t) = scanQA t.length t
  simp only [scanQA]
  rw [h]

/-- The canonical run emits a match and resumes at its end. -/
theorem runQA_cons_some (c : Char) (t : List Char) (d q a suf : List Char)
    (h : matchQA (c :: t) = some (d, q, a, suf)) :
    runQA (c :: t) = (d, q, a) :: runQA suf := by
  have hshrink := matchQA_some_shrink _ _ _ _ _ h
  show scanQA (t.length + 1) (c :: t) = _
  simp only [scanQA]
  rw [h]
  show (d, q, a) :: scanQA t.length suf = (d, q, a) :: scanQA suf.length suf
  simp at hshrink
  exact congrArg _ (scanQA_eq t.length suf (by omega) _ _ (by omega) le_rfl)

/-- The canonical run passes over asterisk-free text without matches. -/
theorem runQA_skip_no_star : ∀ (x y : List Char), (∀ c ∈ x, c ≠ '*') →
    runQA (x ++ y) = runQA y := by
  intro x
  induction x with
  | nil => intro y _; rfl
  | cons c x2 ih =>
      intro y hx
      rw [List.cons_append, runQA_cons_none c (x2 ++ y)
        (matchQA_none_not_star c _ (hx c (List.mem_cons_self _ _)))]
      exact ih y (fun c2 h2 => hx c2 (List.mem_cons_of_mem _ h2))

/-- The separator characters are neither asterisks nor hashes. -/
theorem sepChars_ok : ∀ c ∈ sepChars, c ≠ '*' ∧ c ≠ '#' := by decide

/-- The question label literal is hash-free. -/
theorem qlit_no_hash : ∀ c ∈ (['*', '*', 'Q'] : List Char), c ≠ '#' := by decide

/-- The colon markup literal is hash-free. -/
theorem colonlit_no_hash : ∀ c ∈ ([':', '*', '*', ' '] : List Char), c ≠ '#' := by decide

/-- The answer label literal is hash-free. -/
theorem alit_no_hash : ∀ c ∈ (['\n', '\n', '*', '*', 'A'] : List Char), c ≠ '#' := by decide

/-- Digit characters are not asterisks. -/
theorem digit_ne_star {c : Char} (h : Char.isDigit c = true) : c ≠ '*' := by
  intro heq; subst heq; exact absurd h (by decide)

/-- Digit characters are not hashes. -/
theorem digit_ne_hash {c : Char} (h : Char.isDigit c = true) : c ≠ '#' := by
  intro heq; subst heq; exact absurd h (by decide)

/-- Full characterisation of the findall loop on a rendered flashcards block:
exactly the answered pairs are emitted, in order, with the label digits, the
question and the answer captured verbatim; unmatched questions leave nothing. -/
theorem runQA_renderItems : ∀ (items : List FlashItem),
    CleanItems items →
    (items.map FlashItem.label).Pairwise (· ≠ ·) →
    runQA (renderItems items)
      = items.filterMap (fun it => it.a.map (fun av => (it.label, it.q, av))) := by
  intro items
  induction items with
  | nil => intro _ _; rfl
  | cons it rest ih =>
      intro hclean hdist
      obtain ⟨hq, ha, hlne, hld⟩ := hclean it (List.mem_cons_self _ _)
      have hcleanR : CleanItems rest := fun j hj => hclean j (List.mem_cons_of_mem _ hj)
      rw [List.map_cons, List.pairwise_cons] at hdist
      obtain ⟨hhead, hdistR⟩ := hdist
      have hIH := ih hcleanR hdistR
      have hnotin : ∀ j ∈ rest, j.label ≠ it.label := by
        intro j hj heq
        exact hhead j.label (List.mem_map_of_mem _ hj) heq.symm
      have hSep : findSplit (aMarker it.label) (sepChars ++ renderItems rest) = none := by
        refine findSplit_aMarker_sep_none it.label _ (renderItems_shape rest) ?_
        exact findSplit_aMarker_renderItems it.label hld rest hcleanR hnotin
      obtain ⟨l, q, a⟩ := it
      have hqnl : ∀ c ∈ q, c ≠ '\n' := fun c hc => (hq.2 c hc).1
      have hqns : ∀ c ∈ q, c ≠ '*' := fun c hc => (hq.2 c hc).2.1
      rcases a with _ | av
      · -- unmatched question: the whole block is skipped without a match
        obtain ⟨q0, qt, rfl⟩ : ∃ q0 qt, q = q0 :: qt := by
          rcases q with _ | ⟨q0, qt⟩
          · exact absurd rfl hq.1
          · exact ⟨q0, qt, rfl⟩
        have hqtnl : ∀ c ∈ qt, c ≠ '\n' := fun c hc => hqnl c (List.mem_cons_of_mem _ hc)
        have hfsq : findSplit (aMarker l) (qt ++ (sepChars ++ renderItems rest)) = none :=
          findSplit_skip_no_nl_none _ _ (aMarker_shape l) qt _ hqtnl hSep
        have h0 := matchQA_none_no_amarker l hlne hld q0 qt (sepChars ++ renderItems rest) hfsq
        show runQA (renderItem ⟨l, q0 :: qt, none⟩ ++ renderItems rest) = _
        rw [renderItem_unanswered_shape, List.cons_append]
        rw [runQA_cons_none _ _ h0]
        rw [runQA_cons_none _ _ (matchQA_none_star_not_star 'Q' _ (by decide))]
        have hshape2 : ('Q' :: (l ++ ':' :: '*' :: '*' :: ' ' :: (q0 :: (qt ++ (sepChars ++ renderItems rest)))))
            = (('Q' :: l) ++ [':']) ++ ('*' :: '*' :: ' ' :: (q0 :: (qt ++ (sepChars ++ renderItems rest)))) := by
          simp
        rw [hshape2, runQA_skip_no_star _ _ ?hx1]
        case hx1 =>
          intro c hc
          rcases List.mem_append.mp hc with hc | hc
          · rcases List.mem_cons.mp hc with rfl | hc
            · decide
            · exact digit_ne_star (List.all_eq_true.mp hld c hc)
          · rcases List.mem_singleton.mp hc with rfl
            decide
        rw [runQA_cons_none _ _ (matchQA_none_star_star_not_q ' ' _ (by decide))]
        rw [runQA_cons_none _ _ (matchQA_none_star_not_star ' ' _ (by decide))]
        have hshape3 : (' ' :: (q0 :: (qt ++ (sepChars ++ renderItems rest))))
            = ((' ' :: (q0 :: qt)) ++ sepChars) ++ renderItems rest := by
          simp
        rw [hshape3, runQA_skip_no_star _ _ ?hx2]
        case hx2 =>
          intro c hc
          rcases List.mem_append.mp hc with hc | hc
          · rcases List.mem_cons.mp hc with rfl | hc
            · decide
            · exact hqns c hc
          · exact (sepChars_ok c hc).1
        rw [hIH]
        simp [List.filterMap_cons]
      · -- answered question: one pair is emitted and scanning resumes at the separator
        have hav : cleanTxt av := ha
        show runQA (renderItem ⟨l, q, some av⟩ ++ renderItems rest) = _
        rw [renderItem_answered_shape]
        have hmatch := matchQA_answered l q av (sepChars ++ renderItems rest) hlne hld hq hav
          (lookQA_sep (renderItems rest))
        rw [runQA_cons_some _ _ _ _ _ _ hmatch]
        rw [runQA_skip_no_star sepChars _ (fun c hc => (sepChars_ok c hc).1)]
        rw [hIH]
        simp [List.filterMap_cons]

/-- Scan to the first heading lookahead on hash-free text: everything is captured. -/
theorem findLookSplit_lookSection_eq (t : List Char) (h : ∀ c ∈ t, c ≠ '#') :
    findLookSplit lookSection t = (t, []) := by
  induction t with
  | nil => rfl
  | cons c rest ih =>
      have hlk : lookSection (c :: rest) = false := by
        by_cases hp : lookSection (c :: rest) = true
        · exfalso
          have := eq_append_of_isPrefixOf _ _ hp
          have hmem : '#' ∈ c :: rest := by
            rw [this]
            simp
          exact h '#' hmem rfl
        · simpa using hp
      rw [findLookSplit, if_neg (by simp [hlk])]
      rw [ih (fun c2 h2 => h c2 (List.mem_cons_of_mem _ h2))]

/-- The section scanner hits a document that starts with the section header
and captures up to the first lookahead position. -/
theorem sectionSearch_self (header : List Char) (look : List Char → Bool)
    (hne : header ≠ []) (X : List Char) :
    sectionSearch header look (header ++ X) = some (findLookSplit look X).1 := by
  rcases header with _ | ⟨h0, ht⟩
  · exact absurd rfl hne
  rw [List.cons_append, sectionSearch]
  have hpre : (h0 :: ht).isPrefixOf (h0 :: (ht ++ X)) = true := by
    have := isPrefixOf_append_self (h0 :: ht) X
    simpa using this
  rw [if_pos hpre]
  have hdrop : (h0 :: (ht ++ X)).drop (h0 :: ht).length = X := by
    have := List.drop_left (h0 :: ht) X
    simpa using this
  rw [hdrop]

/-- No hash occurs in a rendered flashcards block. -/
theorem renderItems_no_hash : ∀ (items : List FlashItem), CleanItems items →
    ∀ c ∈ renderItems items, c ≠ '#' := by
  intro items
  induction items with
  | nil => intro _ c hc; simp [renderItems] at hc
  | cons it rest ih =>
      intro hclean c hc
      obtain ⟨hq, ha, hlne, hld⟩ := hclean it (List.mem_cons_self _ _)
      rw [renderItems] at hc
      rcases List.mem_append.mp hc with hc | hc
      · obtain ⟨l, q, a⟩ := it
        rcases a with _ | av
        · simp only [renderItem, List.mem_append] at hc
          rcases hc with ((((hc | hc) | hc) | hc) | hc) | hc
          · exact qlit_no_hash c hc
          · exact digit_ne_hash (List.all_eq_true.mp hld c hc)
          · exact colonlit_no_hash c hc
          · exact (hq.2 c hc).2.2
          · simp at hc
          · exact (sepChars_ok c hc).2
        · have hav : cleanTxt av := ha
          simp only [renderItem, List.mem_append] at hc
          rcases hc with ((((hc | hc) | hc) | hc) | ((hc | hc) | hc) | hc) | hc
          · exact qlit_no_hash c hc
          · exact digit_ne_hash (List.all_eq_true.mp hld c hc)
          · exact colonlit_no_hash c hc
          · exact (hq.2 c hc).2.2
          · exact alit_no_hash c hc
          · exact digit_ne_hash (List.all_eq_true.mp hld c hc)
          · exact colonlit_no_hash c hc
          · exact (hav.2 c hc).2.2
          · exact (sepChars_ok c hc).2
      · exact ih (fun j hj => hclean j (List.mem_cons_of_mem _ hj)) c hc

/-- C7: for every document whose flashcards block renders a list of labelled
question blocks in the serializer layout, with clean single-line texts,
pairwise distinct numeric labels, and at least one question marker lacking its
matching answer marker, the Document Parser returns exactly the well-paired
question/answer entries (matched by shared numeric label) in order, with no
partial or garbage entry for the unmatched questions; the embedded parser is a
total function, so no exception is raised. -/
theorem unmatched_question_dropped (items : List FlashItem)
    (hclean : CleanItems items)
    (hdist : (items.map FlashItem.label).Pairwise (· ≠ ·))
    (hunmatched : ∃ it ∈ items, it.a = none) :
    (parseMarkdownContent ⟨flashcardsHeader ++ renderItems items⟩).flashcards
      = items.filterMap (fun it => it.a.map
          (fun av => ({ question := pyStrip ⟨it.q⟩, answer := pyStrip ⟨av⟩ } : Flashcard))) := by
  have hnohash := renderItems_no_hash items hclean
  have hsec : sectionSearch flashcardsHeader lookSection (flashcardsHeader ++ renderItems items)
      = some (renderItems items) := by
    rw [sectionSearch_self _ _ (by decide) _, findLookSplit_lookSection_eq _ hnohash]
  have hflash : (parseMarkdownContent ⟨flashcardsHeader ++ renderItems items⟩).flashcards
      = (runQA (renderItems items)).map
          (fun tr => ({ question := pyStrip ⟨tr.2.1⟩, answer := pyStrip ⟨tr.2.2⟩ } : Flashcard)) := by
    show (match sectionSearch flashcardsHeader lookSection (flashcardsHeader ++ renderItems items) with
          | none => ([] : List Flashcard)
          | some body => (scanQA body.length body).map
              (fun tr : List Char × List Char × List Char =>
                { question := pyStrip ⟨tr.2.1⟩, answer := pyStrip ⟨tr.2.2⟩ })) = _
    rw [hsec]
    rfl
  rw [hflash, runQA_renderItems items hclean hdist, List.map_filterMap]
  refine List.filterMap_congr (fun it _ => ?_)
  rcases it.a with _ | av <;> simp

/-- Concrete flashcards block for the C7 witness: Q2 has no matching A2. -/
def c7Items : List FlashItem :=
  [⟨['1'], "q one".data, some "a one".data⟩,
   ⟨['2'], "q two".data, none⟩,
   ⟨['3'], "q three".data, some "a three".data⟩]

/-- C7 witness: on the concrete block the parser keeps exactly pairs 1 and 3. -/
theorem unmatched_question_dropped_witness :
    (parseMarkdownContent ⟨flashcardsHeader ++ renderItems c7Items⟩).flashcards
      = c7Items.filterMap (fun it => it.a.map
          (fun av => ({ question := pyStrip ⟨it.q⟩, answer := pyStrip ⟨av⟩ } : Flashcard))) :=
  unmatched_question_dropped c7Items (by decide) (by decide) (by decide)

end BookHighlights
